import Mathlib

/-
Verification of the tag-rule evaluation and application engine of the
bot-creditscan backend (backend/app/domains/tag_rules).  The Python code
is shallowly embedded: entity rows become structures, the database
session becomes an explicit Db value threaded through the operations,
fallible calls return Except, and Python regular expressions are
abstracted by a compile function passed as a parameter.  Amounts are
fixed-point decimals in the source and are embedded as scaled integers,
which preserves all order comparisons.
-/

namespace CreditScan

/-- Result type of compiling one regular-expression pattern with
re.IGNORECASE: none models re.error, and a successful compilation yields
the search function of the compiled pattern (true when the pattern is
found anywhere in the text). -/
def ReCompile : Type := String → Option (String → Bool)

/-- Python str.lower, restricted to the ASCII letters that Char.toLower
handles; the engine only lower-cases payees, descriptions and rule
strings. -/
def pyLower (s : String) : String := String.mk (s.data.map Char.toLower)

/-- Python str.upper, used for the currency comparison. -/
def pyUpper (s : String) : String := String.mk (s.data.map Char.toUpper)

/-- Python substring membership, needle in hay, on strings. -/
def pySubstr (needle hay : String) : Bool := decide (needle.data.IsInfix hay.data)

/-- Python truthiness of an optional string: None and the empty string
are falsy, every other string is truthy. -/
def strTruthy : Option String → Bool
  | none => false
  | some s => decide (s ≠ "")

/-- Value of an optional string at a point where the source has already
established truthiness. -/
def strVal (o : Option String) : String := o.getD ""

/-- Modelled from the spec: credit-card row of the ownership chain
(Transaction to Statement to Card to user).  The credit_cards model file
is not among the embedded sources; only the two fields the engine reads
appear. -/
structure CreditCard where
  id : Nat
  user_id : Nat
deriving DecidableEq

/-- Modelled from the spec: card-statement row linking a transaction to
a credit card in the ownership chain. -/
structure CardStatement where
  id : Nat
  card_id : Nat
deriving DecidableEq

/-- Modelled from the spec: transaction row with the fields the rule
engine reads (identity, statement reference, date, payee, description,
nullable signed amount, currency code). -/
structure Transaction where
  id : Nat
  statement_id : Nat
  txn_date : Int
  payee : String
  description : String
  amount : Option Int
  currency : String
deriving DecidableEq

/-- Modelled from the spec: transaction-tag association row, the unique
(transaction id, tag id) pair. -/
structure TransactionTag where
  transaction_id : Nat
  tag_id : Nat
deriving DecidableEq

/-- TagRule row (backend/app/domains/tag_rules/domain/models.py): owner,
target tag, enabled flag, priority, creation timestamp and the seven
nullable match fields. -/
structure TagRule where
  id : Nat
  user_id : Nat
  tag_id : Nat
  enabled : Bool
  priority : Int
  created_at : Nat
  payee_contains : Option String
  description_contains : Option String
  payee_regex : Option String
  description_regex : Option String
  amount_min : Option Int
  amount_max : Option Int
  currency : Option String
deriving DecidableEq

/-- Database state visible to the engine: one list per table read or
written by the tag-rule service. -/
structure Db where
  cards : List CreditCard
  statements : List CardStatement
  transactions : List Transaction
  tag_rules : List TagRule
  transaction_tags : List TransactionTag
deriving DecidableEq

/-- State with the association table replaced; every write of the engine
has this shape. -/
def tagsWith (db : Db) (l : List TransactionTag) : Db :=
  { db with transaction_tags := l }

/-- Compiled-pattern search as the evaluator uses it: re.compile inside
a try block, with re.error turning the condition into a non-match. -/
def reSearch (re : ReCompile) (pat text : String) : Bool :=
  match re pat with
  | some search => search text
  | none => false

/-- The payee_contains block of TagRuleService._evaluate_rule in
isolation: skipped when the field is falsy, otherwise a case-insensitive
substring test against the payee. -/
def checkPayeeContains (rule : TagRule) (t : Transaction) : Bool :=
  match rule.payee_contains with
  | none => true
  | some s => if s = "" then true else pySubstr (pyLower s) (pyLower t.payee)

/-- The description_contains block of TagRuleService._evaluate_rule in
isolation. -/
def checkDescriptionContains (rule : TagRule) (t : Transaction) : Bool :=
  match rule.description_contains with
  | none => true
  | some s => if s = "" then true else pySubstr (pyLower s) (pyLower t.description)

/-- The payee_regex block of TagRuleService._evaluate_rule in isolation:
skipped when falsy, otherwise a case-insensitive search over the payee,
with a compile failure counting as a non-match. -/
def checkPayeeRegex (re : ReCompile) (rule : TagRule) (t : Transaction) : Bool :=
  match rule.payee_regex with
  | none => true
  | some p => if p = "" then true else reSearch re p t.payee

/-- The description_regex block of TagRuleService._evaluate_rule in
isolation. -/
def checkDescriptionRegex (re : ReCompile) (rule : TagRule) (t : Transaction) : Bool :=
  match rule.description_regex with
  | none => true
  | some p => if p = "" then true else reSearch re p t.description

/-- The amount_min block of TagRuleService._evaluate_rule in isolation:
with a bound present, a null transaction amount fails, otherwise the
inclusive lower-bound comparison decides. -/
def checkAmountMin (rule : TagRule) (t : Transaction) : Bool :=
  match rule.amount_min with
  | none => true
  | some m =>
    match t.amount with
    | none => false
    | some a => decide (m ≤ a)

/-- The amount_max block of TagRuleService._evaluate_rule in isolation. -/
def checkAmountMax (rule : TagRule) (t : Transaction) : Bool :=
  match rule.amount_max with
  | none => true
  | some m =>
    match t.amount with
    | none => false
    | some a => decide (a ≤ m)

/-- The currency block of TagRuleService._evaluate_rule in isolation:
skipped when falsy, otherwise a case-insensitive exact comparison. -/
def checkCurrency (rule : TagRule) (t : Transaction) : Bool :=
  match rule.currency with
  | none => true
  | some c => if c = "" then true else pyUpper t.currency == pyUpper c

/-- Lines 116 to 166 of TagRuleService._evaluate_rule: the chain of
guarded early returns over the seven match fields.  Each branch mirrors
one if-block of the source; a failing block is return False and falling
through every block is return True. -/
def evaluate_conditions (re : ReCompile) (rule : TagRule) (t : Transaction) : Bool :=
  if strTruthy rule.payee_contains
      && !(pySubstr (pyLower (strVal rule.payee_contains)) (pyLower t.payee)) then false
  else if strTruthy rule.description_contains
      && !(pySubstr (pyLower (strVal rule.description_contains)) (pyLower t.description)) then false
  else if strTruthy rule.payee_regex
      && !(reSearch re (strVal rule.payee_regex) t.payee) then false
  else if strTruthy rule.description_regex
      && !(reSearch re (strVal rule.description_regex) t.description) then false
  else if rule.amount_min.isSome
      && (t.amount.isNone || decide (t.amount.getD 0 < rule.amount_min.getD 0)) then false
  else if rule.amount_max.isSome
      && (t.amount.isNone || decide (rule.amount_max.getD 0 < t.amount.getD 0)) then false
  else if strTruthy rule.currency
      && !(pyUpper t.currency == pyUpper (strVal rule.currency)) then false
  else true

/-- TagRuleService._transaction_belongs_to_user: the join of credit
cards and card statements selecting a card of the given user whose
statement set contains the statement of the transaction. -/
def transaction_belongs_to_user (db : Db) (t : Transaction) (uid : Nat) : Bool :=
  db.cards.any fun c =>
    db.statements.any fun s =>
      c.id == s.card_id && s.id == t.statement_id && c.user_id == uid

/-- TagRuleService._evaluate_rule: the ownership guard followed by the
condition chain. -/
def evaluate_rule (re : ReCompile) (db : Db) (rule : TagRule) (t : Transaction)
    (uid : Nat) : Bool :=
  if !transaction_belongs_to_user db t uid then false
  else evaluate_conditions re rule t

/-- Order realised by the repository query ORDER BY priority ASC,
created_at ASC. -/
def ruleOrder (a b : TagRule) : Prop :=
  a.priority < b.priority ∨ (a.priority = b.priority ∧ a.created_at ≤ b.created_at)

instance : DecidableRel ruleOrder := fun a b => by
  unfold ruleOrder; exact inferInstance

instance : IsTotal TagRule ruleOrder :=
  ⟨fun a b => by unfold ruleOrder; omega⟩

instance : IsTrans TagRule ruleOrder :=
  ⟨fun a b c => by unfold ruleOrder; omega⟩

/-- TagRuleRepository.list_applicable_for_user: rules of the user,
restricted to enabled ones when enabled_only is set, ordered by priority
then creation timestamp.  The SQL ORDER BY is modelled by a stable
sort under ruleOrder. -/
def list_applicable_for_user (db : Db) (uid : Nat) (enabled_only : Bool) :
    List TagRule :=
  ((db.tag_rules.filter fun r => r.user_id == uid).filter
      fun r => !enabled_only || r.enabled).insertionSort ruleOrder

/-- Modelled from the spec: TransactionTagRepository.get_by_ids, the
lookup-by-pair contract of the association table; the repository raises
TransactionTagNotFoundError exactly when this is false. -/
def transaction_tag_exists (db : Db) (tid tagid : Nat) : Bool :=
  db.transaction_tags.any fun tt => tt.transaction_id == tid && tt.tag_id == tagid

/-- Modelled from the spec: TransactionTagRepository.create, a generic
association write with no further business logic; the pair-uniqueness
constraint of the table makes the insert fail when the pair is already
present at insert time. -/
def transaction_tag_create (db : Db) (tid tagid : Nat) : Except Unit Db :=
  if transaction_tag_exists db tid tagid then Except.error ()
  else Except.ok (tagsWith db (db.transaction_tags ++ [⟨tid, tagid⟩]))

/-- TagRuleService._apply_tag_to_transaction in the sequential case: the
existence check and the insert observe the same state, so the insert of
the else-branch always succeeds and the pair is appended. -/
def apply_tag_to_transaction (db : Db) (tid tagid : Nat) : Bool × Db :=
  if transaction_tag_exists db tid tagid then (false, db)
  else (true, tagsWith db (db.transaction_tags ++ [⟨tid, tagid⟩]))

/-- TagRuleService._apply_tag_to_transaction under a race: the existence
check runs against dbCheck while the insert runs against dbInsert, where
a concurrent request may have inserted the pair in between.  The source
catches only TransactionTagNotFoundError from the lookup, so a failure
of the insert itself propagates. -/
def apply_tag_to_transaction_race (dbCheck dbInsert : Db) (tid tagid : Nat) :
    Except Unit (Bool × Db) :=
  if transaction_tag_exists dbCheck tid tagid then Except.ok (false, dbInsert)
  else
    match transaction_tag_create dbInsert tid tagid with
    | Except.ok db2 => Except.ok (true, db2)
    | Except.error e => Except.error e

/-- Response of the single-transaction apply entry point. -/
structure ApplyTxnResult where
  evaluated_count : Nat
  applied_count : Nat
  transaction_id : Nat
  applied_tag_ids : List Nat
deriving DecidableEq

/-- Rule loop of TagRuleService.apply_rules_to_transaction: for each
rule in order, evaluate, then either commit through the writer and
record only newly applied tags, or in dry-run mode probe the existing
association and record the tag when the pair is absent. -/
def apply_txn_rules (re : ReCompile) (uid : Nat) (dry_run : Bool) (txn : Transaction) :
    List TagRule → List Nat × Db → List Nat × Db
  | [], acc => acc
  | rule :: rest, (tags, d) =>
    apply_txn_rules re uid dry_run txn rest
      (if evaluate_rule re d rule txn uid then
        if !dry_run then
          let r := apply_tag_to_transaction d txn.id rule.tag_id
          (if r.1 then tags ++ [rule.tag_id] else tags, r.2)
        else
          (if transaction_tag_exists d txn.id rule.tag_id then tags
           else tags ++ [rule.tag_id], d)
      else (tags, d))

/-- TagRuleService.apply_rules_to_transaction: load the transaction
(ValueError when absent, modelled as the error case), load the enabled
rules of the user in order, run the rule loop, and report the counts and
touched tag ids. -/
def apply_rules_to_transaction (re : ReCompile) (db : Db) (tid uid : Nat)
    (dry_run : Bool) : Except Unit (ApplyTxnResult × Db) :=
  match db.transactions.find? (fun t => t.id == tid) with
  | none => Except.error ()
  | some txn =>
    let rules := list_applicable_for_user db uid true
    let r := apply_txn_rules re uid dry_run txn rules ([], db)
    Except.ok ({ evaluated_count := 1, applied_count := r.1.length,
                 transaction_id := tid, applied_tag_ids := r.1 }, r.2)

/-- Request of the bulk apply entry point. -/
structure ApplyRulesRequest where
  transaction_id : Option Nat
  statement_id : Option Nat
  date_from : Option Int
  date_to : Option Int
  dry_run : Bool
deriving DecidableEq

/-- Dry-run detail record of the bulk response. -/
structure DetailRecord where
  transaction_id : Nat
  tag_id : Nat
  rule_id : Nat
deriving DecidableEq

/-- Response of the bulk apply entry point. -/
structure ApplyRulesResponse where
  evaluated_count : Nat
  applied_count : Nat
  details : Option (List DetailRecord)
deriving DecidableEq

/-- Candidate transaction query of TagRuleService.apply_rules: the
ownership join scoping transactions to the cards of the acting user,
narrowed by the id, statement and inclusive date filters, with
transaction_id taking precedence over statement_id. -/
def candidate_transactions (db : Db) (uid : Nat) (req : ApplyRulesRequest) :
    List Transaction :=
  db.transactions.filter fun t =>
    transaction_belongs_to_user db t uid
    && (match req.transaction_id with
        | some x => t.id == x
        | none =>
          match req.statement_id with
          | some s => t.statement_id == s
          | none => true)
    && (match req.date_from with
        | some d => decide (d ≤ t.txn_date)
        | none => true)
    && (match req.date_to with
        | some d => decide (t.txn_date ≤ d)
        | none => true)

/-- Ordered cross product realising the nested loops over candidate
transactions and rules of TagRuleService.apply_rules. -/
def txnRulePairs (txns : List Transaction) (rules : List TagRule) :
    List (Transaction × TagRule) :=
  txns.flatMap fun t => rules.map fun r => (t, r)

/-- Pair loop of TagRuleService.apply_rules: evaluate, skip pairs that
are already tagged, otherwise count one application, commit through the
writer unless dry_run, and append a detail record when dry_run. -/
def apply_pairs (re : ReCompile) (uid : Nat) (dry_run : Bool) :
    List (Transaction × TagRule) → Nat × List DetailRecord × Db →
      Nat × List DetailRecord × Db
  | [], acc => acc
  | (txn, rule) :: rest, (cnt, det, d) =>
    apply_pairs re uid dry_run rest
      (if evaluate_rule re d rule txn uid then
        if transaction_tag_exists d txn.id rule.tag_id then (cnt, det, d)
        else
          (cnt + 1,
           if dry_run then det ++ [⟨txn.id, rule.tag_id, rule.id⟩] else det,
           if !dry_run then (apply_tag_to_transaction d txn.id rule.tag_id).2 else d)
      else (cnt, det, d))

/-- TagRuleService.apply_rules: build the candidate set, load the
enabled rules of the user in order, run the pair loop, and report the
candidate count, the applied count and the dry-run-only details. -/
def apply_rules (re : ReCompile) (db : Db) (uid : Nat) (req : ApplyRulesRequest) :
    ApplyRulesResponse × Db :=
  let txns := candidate_transactions db uid req
  let rules := list_applicable_for_user db uid true
  let r := apply_pairs re uid req.dry_run (txnRulePairs txns rules) (0, [], db)
  ({ evaluated_count := txns.length, applied_count := r.1,
     details := if req.dry_run then some r.2.1 else none }, r.2.2)

/-- TagRuleCreate payload (models.py): every rule field as submitted at
creation time. -/
structure TagRuleCreateData where
  user_id : Nat
  tag_id : Nat
  name : Option String
  enabled : Bool
  priority : Int
  created_at : Nat
  payee_contains : Option String
  description_contains : Option String
  payee_regex : Option String
  description_regex : Option String
  amount_min : Option Int
  amount_max : Option Int
  currency : Option String
deriving DecidableEq

/-- TagRuleUpdate payload (models.py): every field optional. -/
structure TagRuleUpdateData where
  name : Option String
  tag_id : Option Nat
  enabled : Option Bool
  priority : Option Int
  payee_contains : Option String
  description_contains : Option String
  payee_regex : Option String
  description_regex : Option String
  amount_min : Option Int
  amount_max : Option Int
  currency : Option String
deriving DecidableEq

/-- The validate_regex field validator of models.py: a non-null pattern
must compile, a null one passes. -/
def validate_regex (re : ReCompile) : Option String → Bool
  | none => true
  | some p => (re p).isSome

/-- Condition of the validate_at_least_one_condition model validator of
TagRuleCreate: all seven match fields are None. -/
def all_conditions_none (p : TagRuleCreateData) : Bool :=
  p.payee_contains.isNone && p.description_contains.isNone
    && p.payee_regex.isNone && p.description_regex.isNone
    && p.amount_min.isNone && p.amount_max.isNone && p.currency.isNone

/-- Validation performed when a TagRuleCreate model is constructed: the
two regex field validators and the zero-conditions model validator; a
ValueError of any validator is the error case. -/
def tagRuleCreate_validate (re : ReCompile) (p : TagRuleCreateData) :
    Except String TagRuleCreateData :=
  if !validate_regex re p.payee_regex then Except.error "Invalid regex pattern"
  else if !validate_regex re p.description_regex then Except.error "Invalid regex pattern"
  else if all_conditions_none p then
    Except.error "At least one match condition must be set"
  else Except.ok p

/-- Validation performed when a TagRuleUpdate model is constructed: only
the two regex field validators; TagRuleUpdate has no zero-conditions
model validator. -/
def tagRuleUpdate_validate (re : ReCompile) (p : TagRuleUpdateData) :
    Except String TagRuleUpdateData :=
  if !validate_regex re p.payee_regex then Except.error "Invalid regex pattern"
  else if !validate_regex re p.description_regex then Except.error "Invalid regex pattern"
  else Except.ok p

/-- Rule row persisted by TagRuleRepository.create from a validated
payload, with the server-assigned id and timestamp. -/
def ruleOfCreate (rid : Nat) (p : TagRuleCreateData) : TagRule :=
  { id := rid, user_id := p.user_id, tag_id := p.tag_id,
    enabled := p.enabled, priority := p.priority, created_at := p.created_at,
    payee_contains := p.payee_contains,
    description_contains := p.description_contains,
    payee_regex := p.payee_regex, description_regex := p.description_regex,
    amount_min := p.amount_min, amount_max := p.amount_max,
    currency := p.currency }

/-- Creation flow at the boundary: the pydantic validation of
TagRuleCreate runs when the payload is parsed, before
TagRuleRepository.create inserts the row; a validation error therefore
leaves the database untouched.  The tag-ownership check of
TagRuleService.create_tag_rule sits between the two and is independent
of the match fields, so it is not modelled here. -/
def create_tag_rule_op (re : ReCompile) (db : Db) (rid : Nat)
    (p : TagRuleCreateData) : Except String Db :=
  match tagRuleCreate_validate re p with
  | Except.error e => Except.error e
  | Except.ok q =>
    Except.ok { db with tag_rules := db.tag_rules ++ [ruleOfCreate rid q] }

/-- Row written by TagRuleRepository.update with the payload produced by
TagRuleUpdateIn.to_update: to_update constructs TagRuleUpdate with every
field passed explicitly, so model_dump(exclude_unset=True) contains all
eleven fields and each one is written to the row.  This function models
the successful case only: update_tag_rule_op rejects a None in the
non-nullable columns tag_id, enabled and priority before reaching it, so
the getD fallbacks for those three columns are never taken. -/
def applyUpdate (r : TagRule) (p : TagRuleUpdateData) : TagRule :=
  { r with
    tag_id := p.tag_id.getD r.tag_id,
    enabled := p.enabled.getD r.enabled,
    priority := p.priority.getD r.priority,
    payee_contains := p.payee_contains,
    description_contains := p.description_contains,
    payee_regex := p.payee_regex,
    description_regex := p.description_regex,
    amount_min := p.amount_min,
    amount_max := p.amount_max,
    currency := p.currency }

/-- Update flow at the boundary: pydantic validation of TagRuleUpdate at
parse time, then TagRuleRepository.update writes every payload field to
the row and commits; a validation error or a missing rule leaves the
database untouched.  Because to_update marks all fields as set, a None
payload value lands in the row even for the non-nullable columns
tag_id, enabled and priority, and the commit then fails on their
NOT NULL constraints; that failure is the error case of the guard
below. -/
def update_tag_rule_op (re : ReCompile) (db : Db) (rid : Nat)
    (p : TagRuleUpdateData) : Except String Db :=
  match tagRuleUpdate_validate re p with
  | Except.error e => Except.error e
  | Except.ok q =>
    match db.tag_rules.find? (fun r => r.id == rid) with
    | none => Except.error "Tag rule not found"
    | some _ =>
      if q.tag_id.isNone || q.enabled.isNone || q.priority.isNone then
        Except.error "NOT NULL constraint failed"
      else
        let rows := db.tag_rules.map (fun x => if x.id == rid then applyUpdate x q else x)
        Except.ok { db with tag_rules := rows }

/-- Association key written for one (transaction, rule) pair of the
bulk cross product. -/
def pairKey (p : Transaction × TagRule) : TransactionTag := ⟨p.1.id, p.2.tag_id⟩

/-- One pair of the bulk cross product counts against a reference state:
the rule matches and the pair is not yet tagged there. -/
def wouldApply (re : ReCompile) (uid : Nat) (db : Db)
    (p : Transaction × TagRule) : Bool :=
  evaluate_rule re db p.2 p.1 uid && !(transaction_tag_exists db p.1.id p.2.tag_id)

/-- One rule counts for a fixed transaction against a reference state:
the rule matches and the pair is not yet tagged there. -/
def ruleApplies (re : ReCompile) (uid : Nat) (db : Db) (txn : Transaction)
    (r : TagRule) : Bool :=
  evaluate_rule re db r txn uid && !(transaction_tag_exists db txn.id r.tag_id)

/-- Regex engine on which no pattern compiles; usable wherever the rules
under evaluation carry no regex condition. -/
def reNone : ReCompile := fun _ => none

/-- Regex engine on which every pattern compiles and no search succeeds. -/
def reOk : ReCompile := fun _ => some (fun _ => false)

/-- Card 1 of user 1. -/
def exCard : CreditCard := ⟨1, 1⟩

/-- Card 2 of user 2. -/
def exCard2 : CreditCard := ⟨2, 2⟩

/-- Statement 1 on card 1. -/
def exStatement : CardStatement := ⟨1, 1⟩

/-- Statement 2 on card 2. -/
def exStatement2 : CardStatement := ⟨2, 2⟩

/-- A 50.00 USD Amazon transaction on statement 1, so owned by user 1. -/
def exTxn : Transaction := ⟨1, 1, 0, "Amazon", "Online purchase", some 5000, "USD"⟩

/-- The same purchase as transaction 2 on statement 2, owned by user 2. -/
def exTxn2 : Transaction := ⟨2, 2, 0, "Amazon", "Online purchase", some 5000, "USD"⟩

/-- Rule 11 of user 1 tagging tag 7 on payees containing amazon. -/
def exRule : TagRule :=
  ⟨11, 1, 7, true, 100, 0, some "amazon", none, none, none, none, none, none⟩

/-- Rule 12 of user 1: same condition and same tag 7 as rule 11. -/
def exRule2 : TagRule :=
  ⟨12, 1, 7, true, 100, 1, some "amazon", none, none, none, none, none, none⟩

/-- Rule 13 of user 1: same condition as rule 11 but tag 8. -/
def exRuleB : TagRule :=
  ⟨13, 1, 8, true, 100, 1, some "amazon", none, none, none, none, none, none⟩

/-- State with two rules sharing tag 7 and one matching transaction. -/
def exDb : Db := ⟨[exCard], [exStatement], [exTxn], [exRule, exRule2], []⟩

/-- State with two rules carrying distinct tags and one matching
transaction. -/
def exDbDistinct : Db := ⟨[exCard], [exStatement], [exTxn], [exRule, exRuleB], []⟩

/-- State with two users: user 1 owns transaction 1, user 2 owns
transaction 2, and rule 11 belongs to user 1. -/
def exDbTwoUsers : Db :=
  ⟨[exCard, exCard2], [exStatement, exStatement2], [exTxn, exTxn2], [exRule], []⟩

/-- Unfiltered dry-run bulk request. -/
def exReqDry : ApplyRulesRequest := ⟨none, none, none, none, true⟩

/-- Unfiltered committing bulk request. -/
def exReqCommit : ApplyRulesRequest := ⟨none, none, none, none, false⟩

/-- Update payload whose eleven fields are all None. -/
def exUpdAllNone : TagRuleUpdateData :=
  ⟨none, none, none, none, none, none, none, none, none, none, none⟩

/-- Update payload carrying values for the non-nullable columns tag 7,
enabled, priority 100, and None for all seven condition fields. -/
def exUpdKeepTag : TagRuleUpdateData :=
  ⟨none, some 7, some true, some 100, none, none, none, none, none, none, none⟩

/-- Creation payload whose only non-null condition is an empty
payee_contains string. -/
def exCreateEmptyStr : TagRuleCreateData :=
  ⟨1, 7, none, true, 100, 0, some "", none, none, none, none, none, none⟩

/-- Empty state. -/
def exDbEmpty : Db := ⟨[], [], [], [], []⟩

/-- State holding only the association pair (1, 7). -/
def exDbPair : Db := ⟨[], [], [], [], [⟨1, 7⟩]⟩

/-- The two-rule state after tag 7 has been attached to transaction 1. -/
def exDbTagged : Db := ⟨[exCard], [exStatement], [exTxn], [exRule, exRule2], [⟨1, 7⟩]⟩

/-- Creation payload whose seven condition fields are all None. -/
def exCreateAllNone : TagRuleCreateData :=
  ⟨1, 7, none, true, 100, 0, none, none, none, none, none, none, none⟩

/-- A guarded early-return branch is the negation of the corresponding
isolated payee_contains check. -/
theorem failPayeeContains (rule : TagRule) (t : Transaction) :
    (strTruthy rule.payee_contains
      && !(pySubstr (pyLower (strVal rule.payee_contains)) (pyLower t.payee)))
      = !(checkPayeeContains rule t) := by
  rcases h : rule.payee_contains with _ | s
  · simp [strTruthy, checkPayeeContains, h]
  · by_cases hs : s = "" <;> simp [strTruthy, strVal, checkPayeeContains, h, hs]

/-- A guarded early-return branch is the negation of the corresponding
isolated description_contains check. -/
theorem failDescriptionContains (rule : TagRule) (t : Transaction) :
    (strTruthy rule.description_contains
      && !(pySubstr (pyLower (strVal rule.description_contains)) (pyLower t.description)))
      = !(checkDescriptionContains rule t) := by
  rcases h : rule.description_contains with _ | s
  · simp [strTruthy, checkDescriptionContains, h]
  · by_cases hs : s = "" <;> simp [strTruthy, strVal, checkDescriptionContains, h, hs]

/-- A guarded early-return branch is the negation of the corresponding
isolated payee_regex check. -/
theorem failPayeeRegex (re : ReCompile) (rule : TagRule) (t : Transaction) :
    (strTruthy rule.payee_regex && !(reSearch re (strVal rule.payee_regex) t.payee))
      = !(checkPayeeRegex re rule t) := by
  rcases h : rule.payee_regex with _ | s
  · simp [strTruthy, checkPayeeRegex, h]
  · by_cases hs : s = "" <;> simp [strTruthy, strVal, checkPayeeRegex, h, hs]

/-- A guarded early-return branch is the negation of the corresponding
isolated description_regex check. -/
theorem failDescriptionRegex (re : ReCompile) (rule : TagRule) (t : Transaction) :
    (strTruthy rule.description_regex
      && !(reSearch re (strVal rule.description_regex) t.description))
      = !(checkDescriptionRegex re rule t) := by
  rcases h : rule.description_regex with _ | s
  · simp [strTruthy, checkDescriptionRegex, h]
  · by_cases hs : s = "" <;> simp [strTruthy, strVal, checkDescriptionRegex, h, hs]

/-- A guarded early-return branch is the negation of the corresponding
isolated amount_min check. -/
theorem failAmountMin (rule : TagRule) (t : Transaction) :
    (rule.amount_min.isSome
      && (t.amount.isNone || decide (t.amount.getD 0 < rule.amount_min.getD 0)))
      = !(checkAmountMin rule t) := by
  rcases hm : rule.amount_min with _ | m <;> rcases ha : t.amount with _ | a <;>
    simp [checkAmountMin, hm, ha, ← decide_not, decide_eq_decide]

/-- A guarded early-return branch is the negation of the corresponding
isolated amount_max check. -/
theorem failAmountMax (rule : TagRule) (t : Transaction) :
    (rule.amount_max.isSome
      && (t.amount.isNone || decide (rule.amount_max.getD 0 < t.amount.getD 0)))
      = !(checkAmountMax rule t) := by
  rcases hm : rule.amount_max with _ | m <;> rcases ha : t.amount with _ | a <;>
    simp [checkAmountMax, hm, ha, ← decide_not, decide_eq_decide]

/-- A guarded early-return branch is the negation of the corresponding
isolated currency check. -/
theorem failCurrency (rule : TagRule) (t : Transaction) :
    (strTruthy rule.currency && !(pyUpper t.currency == pyUpper (strVal rule.currency)))
      = !(checkCurrency rule t) := by
  rcases h : rule.currency with _ | s
  · simp [strTruthy, checkCurrency, h]
  · by_cases hs : s = "" <;> simp [strTruthy, strVal, checkCurrency, h, hs]

/-- An early return on a failing boolean check is one conjunct of an
AND-reduction. -/
theorem if_bang_chain (b rest : Bool) :
    (if (!b : Bool) then false else rest) = (b && rest) := by
  cases b <;> simp

/-- The early-return chain of the evaluator equals the conjunction of
the seven isolated per-field checks. -/
theorem evaluate_conditions_eq_checks (re : ReCompile) (rule : TagRule)
    (t : Transaction) :
    evaluate_conditions re rule t =
      (checkPayeeContains rule t && (checkDescriptionContains rule t
        && (checkPayeeRegex re rule t && (checkDescriptionRegex re rule t
        && (checkAmountMin rule t && (checkAmountMax rule t
        && checkCurrency rule t)))))) := by
  unfold evaluate_conditions
  rw [failPayeeContains, failDescriptionContains, failPayeeRegex, failDescriptionRegex,
      failAmountMin, failAmountMax, failCurrency]
  rw [if_bang_chain, if_bang_chain, if_bang_chain, if_bang_chain, if_bang_chain,
      if_bang_chain, if_bang_chain]
  simp

/-- Claim C1: the evaluator combines the non-null match conditions with
AND semantics.  The ownership-guarded evaluator splits into the guard
and the condition chain; the chain is true exactly when all seven
per-field checks hold; a null field makes its check trivially true
(skipped); and flipping any single check to false forces the overall
result to false. -/
theorem evaluate_rule_and_semantics (re : ReCompile) (db : Db) (uid : Nat)
    (rule : TagRule) (t : Transaction) :
    (evaluate_rule re db rule t uid
      = (transaction_belongs_to_user db t uid && evaluate_conditions re rule t)) ∧
    (evaluate_conditions re rule t = true ↔
      (checkPayeeContains rule t = true ∧ checkDescriptionContains rule t = true ∧
       checkPayeeRegex re rule t = true ∧ checkDescriptionRegex re rule t = true ∧
       checkAmountMin rule t = true ∧ checkAmountMax rule t = true ∧
       checkCurrency rule t = true)) ∧
    (rule.payee_contains = none → checkPayeeContains rule t = true) ∧
    (rule.description_contains = none → checkDescriptionContains rule t = true) ∧
    (rule.payee_regex = none → checkPayeeRegex re rule t = true) ∧
    (rule.description_regex = none → checkDescriptionRegex re rule t = true) ∧
    (rule.amount_min = none → checkAmountMin rule t = true) ∧
    (rule.amount_max = none → checkAmountMax rule t = true) ∧
    (rule.currency = none → checkCurrency rule t = true) ∧
    (checkPayeeContains rule t = false → evaluate_conditions re rule t = false) ∧
    (checkDescriptionContains rule t = false → evaluate_conditions re rule t = false) ∧
    (checkPayeeRegex re rule t = false → evaluate_conditions re rule t = false) ∧
    (checkDescriptionRegex re rule t = false → evaluate_conditions re rule t = false) ∧
    (checkAmountMin rule t = false → evaluate_conditions re rule t = false) ∧
    (checkAmountMax rule t = false → evaluate_conditions re rule t = false) ∧
    (checkCurrency rule t = false → evaluate_conditions re rule t = false) := by
  have h := evaluate_conditions_eq_checks re rule t
  refine ⟨?_, ?_, ?_, ?_, ?_, ?_, ?_, ?_, ?_, ?_, ?_, ?_, ?_, ?_, ?_, ?_⟩
  · unfold evaluate_rule
    cases hb : transaction_belongs_to_user db t uid <;> simp [hb]
  · rw [h]; simp [Bool.and_eq_true]
  · intro h0; simp [checkPayeeContains, h0]
  · intro h0; simp [checkDescriptionContains, h0]
  · intro h0; simp [checkPayeeRegex, h0]
  · intro h0; simp [checkDescriptionRegex, h0]
  · intro h0; simp [checkAmountMin, h0]
  · intro h0; simp [checkAmountMax, h0]
  · intro h0; simp [checkCurrency, h0]
  · intro h0; rw [h, h0]; simp
  · intro h0; rw [h, h0]; simp
  · intro h0; rw [h, h0]; simp
  · intro h0; rw [h, h0]; simp
  · intro h0; rw [h, h0]; simp
  · intro h0; rw [h, h0]; simp
  · intro h0; rw [h, h0]; simp

/-- Concrete instantiation of the AND-semantics theorem: the amazon rule
on the Amazon transaction passes its payee check. -/
theorem evaluate_rule_and_semantics_witness :
    checkPayeeContains exRule2 exTxn = true ∧ evaluate_conditions reNone exRule2 exTxn = true := by
  have h := evaluate_rule_and_semantics reNone exDb 1 exRule2 exTxn
  refine ⟨by decide, h.2.1.mpr ⟨by decide, by decide, by decide, by decide, by decide,
    by decide, by decide⟩⟩

/-- Claim C7: a present amount_min (amount_max) condition is satisfied
exactly when the transaction amount is non-null and at least (at most)
the bound; the bound itself matches, and a null amount fails the
condition instead of skipping it, making the whole condition chain
fail. -/
theorem amount_bounds_inclusive (re : ReCompile) (rule : TagRule)
    (t : Transaction) (m M : Int) :
    (rule.amount_min = some m →
      (checkAmountMin rule t = true ↔ ∃ a, t.amount = some a ∧ m ≤ a)) ∧
    (rule.amount_min = some m → t.amount = none → checkAmountMin rule t = false) ∧
    (rule.amount_min = some m → t.amount = some m → checkAmountMin rule t = true) ∧
    (rule.amount_min = some m → t.amount = none →
      evaluate_conditions re rule t = false) ∧
    (rule.amount_max = some M →
      (checkAmountMax rule t = true ↔ ∃ a, t.amount = some a ∧ a ≤ M)) ∧
    (rule.amount_max = some M → t.amount = none → checkAmountMax rule t = false) ∧
    (rule.amount_max = some M → t.amount = some M → checkAmountMax rule t = true) ∧
    (rule.amount_max = some M → t.amount = none →
      evaluate_conditions re rule t = false) := by
  refine ⟨?_, ?_, ?_, ?_, ?_, ?_, ?_, ?_⟩
  · intro hm
    rcases ha : t.amount with _ | a <;> simp [checkAmountMin, hm, ha]
  · intro hm ha; simp [checkAmountMin, hm, ha]
  · intro hm ha; simp [checkAmountMin, hm, ha]
  · intro hm ha
    rw [evaluate_conditions_eq_checks]
    simp [checkAmountMin, hm, ha]
  · intro hM
    rcases ha : t.amount with _ | a <;> simp [checkAmountMax, hM, ha]
  · intro hM ha; simp [checkAmountMax, hM, ha]
  · intro hM ha; simp [checkAmountMax, hM, ha]
  · intro hM ha
    rw [evaluate_conditions_eq_checks]
    simp [checkAmountMax, hM, ha]

/-- Concrete instantiation of the inclusive-bound theorem at a rule with
amount_min and amount_max both equal to the transaction amount. -/
theorem amount_bounds_inclusive_witness :
    checkAmountMin ⟨11, 1, 7, true, 100, 0, none, none, none, none, some 5000,
      some 5000, none⟩ exTxn = true ∧
    checkAmountMax ⟨11, 1, 7, true, 100, 0, none, none, none, none, some 5000,
      some 5000, none⟩ exTxn = true := by
  have h := amount_bounds_inclusive reNone
    ⟨11, 1, 7, true, 100, 0, none, none, none, none, some 5000, some 5000, none⟩
    exTxn 5000 5000
  exact ⟨h.2.2.1 rfl rfl, h.2.2.2.2.2.2.1 rfl rfl⟩

/-- Claim C10: an empty-string value in any of the five string-match
fields is falsy in the evaluator and the condition is skipped, while the
creation-time zero-conditions validator counts the empty string as a
present condition; a rule whose conditions are all absent or empty
strings therefore validates and matches exactly the transactions that
pass the ownership guard. -/
theorem empty_string_conditions (re : ReCompile) (db : Db) (uid : Nat)
    (rule : TagRule) (t : Transaction) (p : TagRuleCreateData) :
    (rule.payee_contains = some "" → checkPayeeContains rule t = true) ∧
    (rule.description_contains = some "" → checkDescriptionContains rule t = true) ∧
    (rule.payee_regex = some "" → checkPayeeRegex re rule t = true) ∧
    (rule.description_regex = some "" → checkDescriptionRegex re rule t = true) ∧
    (rule.currency = some "" → checkCurrency rule t = true) ∧
    (validate_regex re p.payee_regex = true →
     validate_regex re p.description_regex = true →
     (p.payee_contains = some "" ∨ p.description_contains = some "" ∨
      p.payee_regex = some "" ∨ p.description_regex = some "" ∨
      p.currency = some "") →
     tagRuleCreate_validate re p = Except.ok p) ∧
    ((rule.payee_contains = none ∨ rule.payee_contains = some "") →
     (rule.description_contains = none ∨ rule.description_contains = some "") →
     (rule.payee_regex = none ∨ rule.payee_regex = some "") →
     (rule.description_regex = none ∨ rule.description_regex = some "") →
     rule.amount_min = none → rule.amount_max = none →
     (rule.currency = none ∨ rule.currency = some "") →
     evaluate_rule re db rule t uid = transaction_belongs_to_user db t uid) := by
  refine ⟨?_, ?_, ?_, ?_, ?_, ?_, ?_⟩
  · intro h0; simp [checkPayeeContains, h0]
  · intro h0; simp [checkDescriptionContains, h0]
  · intro h0; simp [checkPayeeRegex, h0]
  · intro h0; simp [checkDescriptionRegex, h0]
  · intro h0; simp [checkCurrency, h0]
  · intro h1 h2 h3
    have hn : all_conditions_none p = false := by
      rcases h3 with h | h | h | h | h <;> simp [all_conditions_none, h]
    simp [tagRuleCreate_validate, h1, h2, hn]
  · intro h1 h2 h3 h4 h5 h6 h7
    have hc : evaluate_conditions re rule t = true := by
      rw [evaluate_conditions_eq_checks]
      have c1 : checkPayeeContains rule t = true := by
        rcases h1 with h | h <;> simp [checkPayeeContains, h]
      have c2 : checkDescriptionContains rule t = true := by
        rcases h2 with h | h <;> simp [checkDescriptionContains, h]
      have c3 : checkPayeeRegex re rule t = true := by
        rcases h3 with h | h <;> simp [checkPayeeRegex, h]
      have c4 : checkDescriptionRegex re rule t = true := by
        rcases h4 with h | h <;> simp [checkDescriptionRegex, h]
      have c7 : checkCurrency rule t = true := by
        rcases h7 with h | h <;> simp [checkCurrency, h]
      simp [c1, c2, c3, c4, c7, checkAmountMin, checkAmountMax, h5, h6]
    unfold evaluate_rule
    cases hb : transaction_belongs_to_user db t uid <;> simp [hb, hc]

/-- Concrete instantiation of the empty-string theorem: the payload
whose only condition is an empty payee_contains validates, and the
corresponding rule matches the owned Amazon transaction. -/
theorem empty_string_conditions_witness :
    tagRuleCreate_validate reOk exCreateEmptyStr = Except.ok exCreateEmptyStr ∧
    evaluate_rule reOk exDb (ruleOfCreate 21 exCreateEmptyStr) exTxn 1 = true := by
  have h := empty_string_conditions reOk exDb 1
    (ruleOfCreate 21 exCreateEmptyStr) exTxn exCreateEmptyStr
  refine ⟨h.2.2.2.2.2.1 (by decide) (by decide) (Or.inl rfl), ?_⟩
  have h2 := h.2.2.2.2.2.2 (Or.inr rfl) (Or.inl rfl) (Or.inl rfl) (Or.inl rfl)
    rfl rfl (Or.inl rfl)
  rw [h2]
  decide

/-- Claim C8: the ordered rule listing returns exactly the rules of the
user, restricted to enabled ones when enabled_only is set, as a
permutation of the filtered table sorted ascending by priority with
ascending creation time breaking ties. -/
theorem list_applicable_for_user_spec (db : Db) (uid : Nat) (enabled_only : Bool) :
    (∀ r, r ∈ list_applicable_for_user db uid enabled_only ↔
      (r ∈ db.tag_rules ∧ r.user_id = uid ∧
       (enabled_only = true → r.enabled = true))) ∧
    (list_applicable_for_user db uid enabled_only).Pairwise (fun a b =>
      a.priority < b.priority ∨
        (a.priority = b.priority ∧ a.created_at ≤ b.created_at)) ∧
    (list_applicable_for_user db uid enabled_only).Perm
      ((db.tag_rules.filter fun r => r.user_id == uid).filter
        fun r => !enabled_only || r.enabled) := by
  refine ⟨?_, ?_, ?_⟩
  · intro r
    unfold list_applicable_for_user
    rw [List.mem_insertionSort]
    simp only [List.mem_filter, beq_iff_eq]
    cases enabled_only <;> simp [and_assoc]
  · have h := List.sorted_insertionSort ruleOrder
      ((db.tag_rules.filter fun r => r.user_id == uid).filter
        fun r => !enabled_only || r.enabled)
    exact h.imp (fun hab => hab)
  · exact List.perm_insertionSort ruleOrder _

/-- Concrete instantiation of the rule-listing theorem: rule 11 of user
1 is listed among the enabled rules of user 1. -/
theorem list_applicable_for_user_spec_witness :
    exRule ∈ list_applicable_for_user exDb 1 true :=
  ((list_applicable_for_user_spec exDb 1 true).1 exRule).mpr
    ⟨by decide, rfl, fun _ => rfl⟩

/-- Claim C9: the bulk response reports the size of the candidate set as
evaluated_count and carries a details list exactly when the request is a
dry run. -/
theorem apply_rules_response_shape (re : ReCompile) (db : Db) (uid : Nat)
    (req : ApplyRulesRequest) :
    ((apply_rules re db uid req).1.evaluated_count
      = (candidate_transactions db uid req).length) ∧
    (req.dry_run = true → ∃ l, (apply_rules re db uid req).1.details = some l) ∧
    (req.dry_run = false → (apply_rules re db uid req).1.details = none) := by
  refine ⟨rfl, ?_, ?_⟩
  · intro h; unfold apply_rules; simp [h]
  · intro h; unfold apply_rules; simp [h]

/-- Concrete instantiation of the response-shape theorem on the one
transaction, two rule state: a dry run reports details, a commit run
does not. -/
theorem apply_rules_response_shape_witness :
    (∃ l, (apply_rules reNone exDb 1 exReqDry).1.details = some l) ∧
    (apply_rules reNone exDb 1 exReqCommit).1.details = none :=
  ⟨(apply_rules_response_shape reNone exDb 1 exReqDry).2.1 rfl,
   (apply_rules_response_shape reNone exDb 1 exReqCommit).2.2 rfl⟩

/-- Two members of a list with pairwise distinct keys and equal keys are
the same element. -/
theorem eq_of_pairwise_key {α β : Type} (f : α → β) {l : List α}
    (h : l.Pairwise fun a b => f a ≠ f b) {a b : α}
    (ha : a ∈ l) (hb : b ∈ l) (hf : f a = f b) : a = b := by
  induction l with
  | nil => cases ha
  | cons c cs ih =>
    rw [List.pairwise_cons] at h
    rcases List.mem_cons.mp ha with ha1 | ha1 <;>
      rcases List.mem_cons.mp hb with hb1 | hb1
    · rw [ha1, hb1]
    · exact absurd hf (ha1 ▸ h.1 b hb1)
    · exact absurd hf.symm (hb1 ▸ h.1 a ha1)
    · exact ih h.2 ha1 hb1

/-- The association lookup succeeds exactly when the pair is a member of
the association table. -/
theorem transaction_tag_exists_iff (db : Db) (tid tagid : Nat) :
    transaction_tag_exists db tid tagid = true ↔
      (⟨tid, tagid⟩ : TransactionTag) ∈ db.transaction_tags := by
  unfold transaction_tag_exists
  rw [List.any_eq_true]
  constructor
  · rintro ⟨tt, htt, hp⟩
    simp only [Bool.and_eq_true, beq_iff_eq] at hp
    have : tt = ⟨tid, tagid⟩ := by cases tt; simp_all
    rwa [this] at htt
  · intro h
    exact ⟨⟨tid, tagid⟩, h, by simp⟩

/-- The association lookup over an explicit list is false when the pair
is not among its members. -/
theorem any_pair_eq_false (l : List TransactionTag) (tid tagid : Nat)
    (h : (⟨tid, tagid⟩ : TransactionTag) ∉ l) :
    (l.any fun tt => tt.transaction_id == tid && tt.tag_id == tagid) = false := by
  rw [List.any_eq_false]
  intro tt htt hp
  simp only [Bool.and_eq_true, beq_iff_eq] at hp
  have : tt = ⟨tid, tagid⟩ := by cases tt; simp_all
  exact h (this ▸ htt)

/-- Replacing the association table does not change the ownership guard
or the evaluator, which only read cards and statements. -/
theorem evaluate_rule_tagsWith (re : ReCompile) (db : Db) (l : List TransactionTag)
    (rule : TagRule) (t : Transaction) (uid : Nat) :
    evaluate_rule re (tagsWith db l) rule t uid = evaluate_rule re db rule t uid := rfl

/-- Replacing the association table does not change the rule listing,
which only reads the rule table. -/
theorem list_applicable_tagsWith (db : Db) (l : List TransactionTag) (uid : Nat)
    (e : Bool) :
    list_applicable_for_user (tagsWith db l) uid e
      = list_applicable_for_user db uid e := rfl

/-- The association lookup on a replaced association table reads that
table. -/
theorem transaction_tag_exists_tagsWith (db : Db) (l : List TransactionTag)
    (tid tagid : Nat) :
    transaction_tag_exists (tagsWith db l) tid tagid
      = l.any (fun tt => tt.transaction_id == tid && tt.tag_id == tagid) := rfl

/-- The candidate query ignores the dry_run flag of the request. -/
theorem candidate_transactions_dry_run (db : Db) (uid : Nat)
    (req : ApplyRulesRequest) (b : Bool) :
    candidate_transactions db uid { req with dry_run := b }
      = candidate_transactions db uid req := rfl

/-- Dry-run characterization of the single-transaction rule loop: the
state is returned untouched and the recorded tags are those of the rules
that match and are not yet associated in the unchanged state. -/
theorem apply_txn_rules_dry (re : ReCompile) (uid : Nat) (txn : Transaction) :
    ∀ (rules : List TagRule) (tags : List Nat) (d : Db),
      apply_txn_rules re uid true txn rules (tags, d)
        = (tags ++ (rules.filter (ruleApplies re uid d txn)).map (fun r => r.tag_id),
           d) := by
  intro rules
  induction rules with
  | nil => intro tags d; simp [apply_txn_rules]
  | cons r rest ih =>
    intro tags d
    rw [apply_txn_rules]
    by_cases he : evaluate_rule re d r txn uid = true
    · by_cases hex : transaction_tag_exists d txn.id r.tag_id = true
      · have hra : ruleApplies re uid d txn r = false := by
          simp [ruleApplies, he, hex]
        simp [he, hex, ih, List.filter_cons, hra]
      · have hra : ruleApplies re uid d txn r = true := by
          simp [ruleApplies, he, Bool.eq_false_iff.mpr hex]
        simp only [Bool.eq_false_iff] at hex
        simp [he, hex, ih, List.filter_cons, hra, List.append_assoc]
    · have hra : ruleApplies re uid d txn r = false := by
        simp [ruleApplies, Bool.eq_false_iff.mpr he]
      simp only [Bool.eq_false_iff] at he
      simp [he, ih, List.filter_cons, hra]

/-- Replacing the association table twice keeps only the second
replacement. -/
theorem tagsWith_tagsWith (db : Db) (x y : List TransactionTag) :
    tagsWith (tagsWith db x) y = tagsWith db y := rfl

/-- On a state whose association table extends the reference table by
pairs other than the probed one, the lookup agrees with the reference
state. -/
theorem transaction_tag_exists_extend (db : Db) (extra : List TransactionTag)
    (tid tagid : Nat) (hkey : (⟨tid, tagid⟩ : TransactionTag) ∉ extra) :
    transaction_tag_exists (tagsWith db (db.transaction_tags ++ extra)) tid tagid
      = transaction_tag_exists db tid tagid := by
  rw [transaction_tag_exists_tagsWith, List.any_append, any_pair_eq_false extra _ _ hkey]
  simp [transaction_tag_exists]

/-- The writer on an extended state is a no-op returning false when the
pair exists in the reference table. -/
theorem apply_tag_step_present (db : Db) (extra : List TransactionTag)
    (tid tagid : Nat) (hkey : (⟨tid, tagid⟩ : TransactionTag) ∉ extra)
    (hx : transaction_tag_exists db tid tagid = true) :
    apply_tag_to_transaction (tagsWith db (db.transaction_tags ++ extra)) tid tagid
      = (false, tagsWith db (db.transaction_tags ++ extra)) := by
  unfold apply_tag_to_transaction
  rw [transaction_tag_exists_extend db extra tid tagid hkey, hx]
  simp

/-- The writer on an extended state appends the pair and returns true
when the pair exists neither in the reference table nor among the fresh
pairs. -/
theorem apply_tag_step_absent (db : Db) (extra : List TransactionTag)
    (tid tagid : Nat) (hkey : (⟨tid, tagid⟩ : TransactionTag) ∉ extra)
    (hx : transaction_tag_exists db tid tagid = false) :
    apply_tag_to_transaction (tagsWith db (db.transaction_tags ++ extra)) tid tagid
      = (true, tagsWith db (db.transaction_tags ++ (extra ++ [⟨tid, tagid⟩]))) := by
  unfold apply_tag_to_transaction
  rw [transaction_tag_exists_extend db extra tid tagid hkey, hx]
  simp [tagsWith_tagsWith, tagsWith, List.append_assoc]

/-- Commit characterization of the single-transaction rule loop over a
state extending the reference state by fresh pairs: when the rules carry
pairwise distinct tags and none of their pairs is among the fresh ones,
the loop records exactly the tags of the rules that match and are not
associated in the reference state, and appends exactly those pairs. -/
theorem apply_txn_rules_commit (re : ReCompile) (uid : Nat) (txn : Transaction)
    (db : Db) :
    ∀ (rules : List TagRule) (extra : List TransactionTag) (tags : List Nat),
      List.Pairwise (fun a b => a.tag_id ≠ b.tag_id) rules →
      (∀ r ∈ rules, (⟨txn.id, r.tag_id⟩ : TransactionTag) ∉ extra) →
      apply_txn_rules re uid false txn rules
          (tags, tagsWith db (db.transaction_tags ++ extra))
        = (tags ++ (rules.filter (ruleApplies re uid db txn)).map (fun r => r.tag_id),
           tagsWith db (db.transaction_tags ++ (extra
             ++ (rules.filter (ruleApplies re uid db txn)).map
                  (fun r => (⟨txn.id, r.tag_id⟩ : TransactionTag))))) := by
  intro rules
  induction rules with
  | nil => intro extra tags _ _; simp [apply_txn_rules]
  | cons r rest ih =>
    intro extra tags hpw hnin
    rw [List.pairwise_cons] at hpw
    have hkey : (⟨txn.id, r.tag_id⟩ : TransactionTag) ∉ extra :=
      hnin r (List.mem_cons_self r rest)
    have hnin2 : ∀ q ∈ rest, (⟨txn.id, q.tag_id⟩ : TransactionTag) ∉ extra :=
      fun q hq => hnin q (List.mem_cons_of_mem r hq)
    rw [apply_txn_rules]
    by_cases he : evaluate_rule re db r txn uid = true
    · by_cases hx : transaction_tag_exists db txn.id r.tag_id = true
      · have hra : ruleApplies re uid db txn r = false := by
          simp [ruleApplies, he, hx]
        simp [evaluate_rule_tagsWith, he,
          apply_tag_step_present db extra txn.id r.tag_id hkey hx,
          ih extra tags hpw.2 hnin2, List.filter_cons, hra]
      · have hxf : transaction_tag_exists db txn.id r.tag_id = false :=
          Bool.eq_false_iff.mpr hx
        have hra : ruleApplies re uid db txn r = true := by
          simp [ruleApplies, he, hxf]
        have hnin3 : ∀ q ∈ rest,
            (⟨txn.id, q.tag_id⟩ : TransactionTag)
              ∉ extra ++ [(⟨txn.id, r.tag_id⟩ : TransactionTag)] := by
          intro q hq
          rw [List.mem_append]
          rintro (h1 | h1)
          · exact hnin2 q hq h1
          · rw [List.mem_singleton] at h1
            have : q.tag_id = r.tag_id := by
              injection h1 with _ h2
            exact hpw.1 q hq this.symm
        simp [evaluate_rule_tagsWith, he,
          apply_tag_step_absent db extra txn.id r.tag_id hkey hxf,
          ih (extra ++ [(⟨txn.id, r.tag_id⟩ : TransactionTag)])
            (tags ++ [r.tag_id]) hpw.2 hnin3,
          List.filter_cons, hra, List.append_assoc]
    · have hef : evaluate_rule re db r txn uid = false := Bool.eq_false_iff.mpr he
      have hra : ruleApplies re uid db txn r = false := by
        simp [ruleApplies, hef]
      simp [evaluate_rule_tagsWith, hef,
        ih extra tags hpw.2 hnin2, List.filter_cons, hra]

/-- Dry-run characterization of the bulk pair loop: the state is
returned untouched, the count advances once per pair that matches and is
not yet associated in the unchanged state, and one detail record is
appended per counted pair. -/
theorem apply_pairs_dry (re : ReCompile) (uid : Nat) :
    ∀ (pairs : List (Transaction × TagRule)) (cnt : Nat)
      (det : List DetailRecord) (d : Db),
      apply_pairs re uid true pairs (cnt, det, d)
        = (cnt + pairs.countP (wouldApply re uid d),
           det ++ (pairs.filter (wouldApply re uid d)).map
             (fun p => (⟨p.1.id, p.2.tag_id, p.2.id⟩ : DetailRecord)),
           d) := by
  intro pairs
  induction pairs with
  | nil => intro cnt det d; simp [apply_pairs]
  | cons p rest ih =>
    rcases p with ⟨txn, rule⟩
    intro cnt det d
    rw [apply_pairs]
    by_cases he : evaluate_rule re d rule txn uid = true
    · by_cases hx : transaction_tag_exists d txn.id rule.tag_id = true
      · have hwa : wouldApply re uid d (txn, rule) = false := by
          simp [wouldApply, he, hx]
        simp [he, hx, ih, List.countP_cons, List.filter_cons, hwa]
      · have hxf : transaction_tag_exists d txn.id rule.tag_id = false :=
          Bool.eq_false_iff.mpr hx
        have hwa : wouldApply re uid d (txn, rule) = true := by
          simp [wouldApply, he, hxf]
        simp [he, hxf, ih, List.countP_cons, List.filter_cons, hwa,
          List.append_assoc, Prod.mk.injEq]
        omega
    · have hef : evaluate_rule re d rule txn uid = false := Bool.eq_false_iff.mpr he
      have hwa : wouldApply re uid d (txn, rule) = false := by
        simp [wouldApply, hef]
      simp [hef, ih, List.countP_cons, List.filter_cons, hwa]

/-- Commit characterization of the bulk pair loop over a state extending
the reference state by fresh pairs: when the pairs carry pairwise
distinct association keys and none of those keys is among the fresh
ones, the count advances once per pair that matches and is not
associated in the reference state, the details stay untouched, and
exactly the counted keys are appended. -/
theorem apply_pairs_commit (re : ReCompile) (uid : Nat) (db : Db) :
    ∀ (pairs : List (Transaction × TagRule)) (extra : List TransactionTag)
      (cnt : Nat) (det : List DetailRecord),
      pairs.Pairwise (fun p q => pairKey p ≠ pairKey q) →
      (∀ p ∈ pairs, pairKey p ∉ extra) →
      apply_pairs re uid false pairs
          (cnt, det, tagsWith db (db.transaction_tags ++ extra))
        = (cnt + pairs.countP (wouldApply re uid db),
           det,
           tagsWith db (db.transaction_tags ++ (extra
             ++ (pairs.filter (wouldApply re uid db)).map pairKey))) := by
  intro pairs
  induction pairs with
  | nil => intro extra cnt det _ _; simp [apply_pairs]
  | cons p rest ih =>
    rcases p with ⟨txn, rule⟩
    intro extra cnt det hpw hnin
    rw [List.pairwise_cons] at hpw
    have hkey : (⟨txn.id, rule.tag_id⟩ : TransactionTag) ∉ extra :=
      hnin (txn, rule) (List.mem_cons_self _ rest)
    have hnin2 : ∀ q ∈ rest, pairKey q ∉ extra :=
      fun q hq => hnin q (List.mem_cons_of_mem _ hq)
    rw [apply_pairs]
    rw [show transaction_tag_exists (tagsWith db (db.transaction_tags ++ extra))
          txn.id rule.tag_id
        = transaction_tag_exists db txn.id rule.tag_id from
      transaction_tag_exists_extend db extra txn.id rule.tag_id hkey]
    by_cases he : evaluate_rule re db rule txn uid = true
    · by_cases hx : transaction_tag_exists db txn.id rule.tag_id = true
      · have hwa : wouldApply re uid db (txn, rule) = false := by
          simp [wouldApply, he, hx]
        simp [evaluate_rule_tagsWith, he, hx, ih extra cnt det hpw.2 hnin2,
          List.countP_cons, List.filter_cons, hwa]
      · have hxf : transaction_tag_exists db txn.id rule.tag_id = false :=
          Bool.eq_false_iff.mpr hx
        have hwa : wouldApply re uid db (txn, rule) = true := by
          simp [wouldApply, he, hxf]
        have hnin3 : ∀ q ∈ rest,
            pairKey q ∉ extra ++ [(⟨txn.id, rule.tag_id⟩ : TransactionTag)] := by
          intro q hq
          rw [List.mem_append]
          rintro (h1 | h1)
          · exact hnin2 q hq h1
          · rw [List.mem_singleton] at h1
            exact hpw.1 q hq (h1.symm)
        simp [evaluate_rule_tagsWith, he, hxf,
          apply_tag_step_absent db extra txn.id rule.tag_id hkey hxf,
          ih (extra ++ [(⟨txn.id, rule.tag_id⟩ : TransactionTag)]) (cnt + 1) det
            hpw.2 hnin3,
          List.countP_cons, List.filter_cons, hwa, List.append_assoc, pairKey,
          Prod.mk.injEq]
        omega
    · have hef : evaluate_rule re db rule txn uid = false := Bool.eq_false_iff.mpr he
      have hwa : wouldApply re uid db (txn, rule) = false := by
        simp [wouldApply, hef]
      simp [evaluate_rule_tagsWith, hef, ih extra cnt det hpw.2 hnin2,
        List.countP_cons, List.filter_cons, hwa]

/-- Membership in the ordered cross product is componentwise
membership. -/
theorem mem_txnRulePairs (txns : List Transaction) (rules : List TagRule)
    (p : Transaction × TagRule) :
    p ∈ txnRulePairs txns rules ↔ p.1 ∈ txns ∧ p.2 ∈ rules := by
  rcases p with ⟨t, r⟩
  unfold txnRulePairs
  rw [List.mem_flatMap]
  constructor
  · rintro ⟨t2, ht2, hp⟩
    rw [List.mem_map] at hp
    rcases hp with ⟨r2, hr2, heq⟩
    injection heq with heq1 heq2
    subst heq1; subst heq2
    exact ⟨ht2, hr2⟩
  · rintro ⟨h1, h2⟩
    exact ⟨t, h1, List.mem_map.mpr ⟨r, h2, rfl⟩⟩

/-- With pairwise distinct transaction ids and pairwise distinct rule
tags, the association keys along the cross product are pairwise
distinct. -/
theorem pairwise_pairKey_product (txns : List Transaction) (rules : List TagRule)
    (htx : txns.Pairwise fun a b => a.id ≠ b.id)
    (hr : rules.Pairwise fun a b => a.tag_id ≠ b.tag_id) :
    (txnRulePairs txns rules).Pairwise fun p q => pairKey p ≠ pairKey q := by
  induction txns with
  | nil => simp [txnRulePairs]
  | cons t ts ih =>
    rw [List.pairwise_cons] at htx
    have hstep : txnRulePairs (t :: ts) rules
        = (rules.map fun r => (t, r)) ++ txnRulePairs ts rules := by
      unfold txnRulePairs
      rw [List.flatMap_cons]
    rw [hstep, List.pairwise_append]
    refine ⟨?_, ih htx.2, ?_⟩
    · refine List.Pairwise.map (fun r => (t, r)) ?_ hr
      intro a b hab hk
      unfold pairKey at hk
      injection hk with _ h2
      exact hab h2
    · intro p hp q hq
      rw [List.mem_map] at hp
      rcases hp with ⟨r, _, rfl⟩
      have hq1 := ((mem_txnRulePairs ts rules q).mp hq).1
      intro hk
      unfold pairKey at hk
      injection hk with h1 _
      exact htx.1 q.1 hq1 h1

/-- With pairwise distinct statement ids and card ids the ownership
chain determines the owner uniquely. -/
theorem belongs_unique (db : Db) (t : Transaction)
    (hs : db.statements.Pairwise fun a b => a.id ≠ b.id)
    (hc : db.cards.Pairwise fun a b => a.id ≠ b.id)
    {u v : Nat}
    (hu : transaction_belongs_to_user db t u = true)
    (hv : transaction_belongs_to_user db t v = true) : u = v := by
  unfold transaction_belongs_to_user at hu hv
  rw [List.any_eq_true] at hu hv
  rcases hu with ⟨cu, hcu, hu⟩
  rw [List.any_eq_true] at hu
  rcases hu with ⟨su, hsu, hu⟩
  rcases hv with ⟨cv, hcv, hv⟩
  rw [List.any_eq_true] at hv
  rcases hv with ⟨sv, hsv, hv⟩
  simp only [Bool.and_eq_true, beq_iff_eq] at hu hv
  obtain ⟨⟨hu1, hu2⟩, hu3⟩ := hu
  obtain ⟨⟨hv1, hv2⟩, hv3⟩ := hv
  have hseq : su = sv :=
    eq_of_pairwise_key (fun s => s.id) hs hsu hsv
      (by show su.id = sv.id; rw [hu2, hv2])
  have hceq : cu = cv :=
    eq_of_pairwise_key (fun c => c.id) hc hcu hcv
      (by show cu.id = cv.id; rw [hu1, hv1, hseq])
  rw [← hu3, ← hv3, hceq]

/-- The association lookup over an explicit list is membership of the
pair. -/
theorem any_pair_iff_mem (l : List TransactionTag) (tid tagid : Nat) :
    (l.any fun tt => tt.transaction_id == tid && tt.tag_id == tagid) = true ↔
      (⟨tid, tagid⟩ : TransactionTag) ∈ l :=
  transaction_tag_exists_iff ⟨[], [], [], [], l⟩ tid tagid

/-- The writer on a state with an explicit association table, written as
a branch on the list lookup. -/
theorem apply_tag_tagsWith (db : Db) (l : List TransactionTag) (tid tagid : Nat) :
    apply_tag_to_transaction (tagsWith db l) tid tagid
      = (if l.any (fun tt => tt.transaction_id == tid && tt.tag_id == tagid)
          then (false, tagsWith db l)
          else (true, tagsWith db (l ++ [⟨tid, tagid⟩]))) := rfl

/-- A run of the single-transaction rule loop only appends pairs of the
processed transaction to the association table. -/
theorem apply_txn_rules_state (re : ReCompile) (uid : Nat) (dry : Bool)
    (txn : Transaction) (db : Db) :
    ∀ (rules : List TagRule) (tags : List Nat) (l : List TransactionTag),
      ∃ ext, (apply_txn_rules re uid dry txn rules (tags, tagsWith db l)).2
          = tagsWith db (l ++ ext)
        ∧ ∀ k ∈ ext, k.transaction_id = txn.id := by
  intro rules
  induction rules with
  | nil =>
    intro tags l
    refine ⟨[], by simp [apply_txn_rules], ?_⟩
    intro k hk; cases hk
  | cons r rest ih =>
    intro tags l
    have main : ∀ (tags2 : List Nat) (l2 : List TransactionTag),
        (l2 = l ∨ l2 = l ++ [(⟨txn.id, r.tag_id⟩ : TransactionTag)]) →
        ∃ ext, (apply_txn_rules re uid dry txn rest (tags2, tagsWith db l2)).2
            = tagsWith db (l ++ ext)
          ∧ ∀ k ∈ ext, k.transaction_id = txn.id := by
      intro tags2 l2 hl2
      rcases ih tags2 l2 with ⟨ext2, h1, h2⟩
      rcases hl2 with rfl | rfl
      · exact ⟨ext2, h1, h2⟩
      · refine ⟨(⟨txn.id, r.tag_id⟩ : TransactionTag) :: ext2, ?_, ?_⟩
        · rw [h1, List.append_assoc, List.singleton_append]
        · intro k hk
          rcases List.mem_cons.mp hk with rfl | hk2
          · rfl
          · exact h2 k hk2
    rw [apply_txn_rules]
    by_cases he : evaluate_rule re (tagsWith db l) r txn uid = true
    · cases dry with
      | true =>
        by_cases hx : transaction_tag_exists (tagsWith db l) txn.id r.tag_id = true
        · simp only [he, if_true, Bool.not_true, Bool.false_eq_true, if_false, hx]
          exact main tags l (Or.inl rfl)
        · simp only [he, if_true, Bool.not_true, Bool.false_eq_true, if_false,
            Bool.eq_false_iff.mpr hx]
          exact main (tags ++ [r.tag_id]) l (Or.inl rfl)
      | false =>
        rw [apply_tag_tagsWith] at *
        by_cases hx : (l.any fun tt =>
            tt.transaction_id == txn.id && tt.tag_id == r.tag_id) = true
        · simp only [he, if_true, Bool.not_false, hx]
          exact main tags l (Or.inl rfl)
        · simp only [he, if_true, Bool.not_false, Bool.eq_false_iff.mpr hx, if_false]
          exact main (tags ++ [r.tag_id]) (l ++ [(⟨txn.id, r.tag_id⟩ : TransactionTag)])
            (Or.inr rfl)
    · simp only [Bool.eq_false_iff.mpr he, Bool.false_eq_true, if_false]
      exact main tags l (Or.inl rfl)

/-- Pairs present in the association table survive a run of the
single-transaction rule loop. -/
theorem apply_txn_rules_mem_mono (re : ReCompile) (uid : Nat) (dry : Bool)
    (txn : Transaction) (db : Db) (rules : List TagRule) (tags : List Nat)
    (l : List TransactionTag) (k : TransactionTag) (hk : k ∈ l) :
    k ∈ ((apply_txn_rules re uid dry txn rules (tags, tagsWith db l)).2).transaction_tags := by
  rcases apply_txn_rules_state re uid dry txn db rules tags l with ⟨ext, h1, _⟩
  rw [h1]
  exact List.mem_append_left ext hk

/-- After a committing run of the single-transaction rule loop, every
rule of the list that matches against the reference state has its pair
in the association table. -/
theorem apply_txn_rules_commit_mem (re : ReCompile) (uid : Nat)
    (txn : Transaction) (db : Db) :
    ∀ (rules : List TagRule) (tags : List Nat) (l : List TransactionTag),
      ∀ r ∈ rules, evaluate_rule re db r txn uid = true →
      (⟨txn.id, r.tag_id⟩ : TransactionTag)
        ∈ ((apply_txn_rules re uid false txn rules (tags, tagsWith db l)).2).transaction_tags := by
  intro rules
  induction rules with
  | nil => intro tags l r hr; cases hr
  | cons r2 rest ih =>
    intro tags l r hr heval
    rw [apply_txn_rules]
    by_cases he : evaluate_rule re (tagsWith db l) r2 txn uid = true
    · rw [apply_tag_tagsWith]
      by_cases hx : (l.any fun tt =>
          tt.transaction_id == txn.id && tt.tag_id == r2.tag_id) = true
      · simp only [he, if_true, Bool.not_false, hx]
        rcases List.mem_cons.mp hr with rfl | hr2
        · exact apply_txn_rules_mem_mono re uid false txn db rest tags l _
            ((any_pair_iff_mem l txn.id r.tag_id).mp hx)
        · exact ih tags l r hr2 heval
      · simp only [he, if_true, Bool.not_false, Bool.eq_false_iff.mpr hx, if_false]
        rcases List.mem_cons.mp hr with rfl | hr2
        · exact apply_txn_rules_mem_mono re uid false txn db rest _ _ _
            (List.mem_append_right l (List.mem_singleton.mpr rfl))
        · exact ih _ _ r hr2 heval
    · simp only [Bool.eq_false_iff.mpr he, Bool.false_eq_true, if_false]
      rcases List.mem_cons.mp hr with rfl | hr2
      · rw [evaluate_rule_tagsWith] at he
        exact absurd heval he
      · exact ih tags l r hr2 heval

/-- A committing run of the single-transaction rule loop is a no-op when
every matching rule already has its pair in the association table. -/
theorem apply_txn_rules_all_present (re : ReCompile) (uid : Nat)
    (txn : Transaction) (db : Db) :
    ∀ (rules : List TagRule) (tags : List Nat) (l : List TransactionTag),
      (∀ r ∈ rules, evaluate_rule re db r txn uid = true →
        (⟨txn.id, r.tag_id⟩ : TransactionTag) ∈ l) →
      apply_txn_rules re uid false txn rules (tags, tagsWith db l)
        = (tags, tagsWith db l) := by
  intro rules
  induction rules with
  | nil => intro tags l _; simp [apply_txn_rules]
  | cons r rest ih =>
    intro tags l hall
    rw [apply_txn_rules]
    by_cases he : evaluate_rule re (tagsWith db l) r txn uid = true
    · have hmem : (⟨txn.id, r.tag_id⟩ : TransactionTag) ∈ l :=
        hall r (List.mem_cons_self r rest) (by rw [← evaluate_rule_tagsWith re db l]; exact he)
      have hx : (l.any fun tt =>
          tt.transaction_id == txn.id && tt.tag_id == r.tag_id) = true :=
        (any_pair_iff_mem l txn.id r.tag_id).mpr hmem
      rw [apply_tag_tagsWith]
      simp only [he, if_true, Bool.not_false, hx]
      exact ih tags l (fun q hq => hall q (List.mem_cons_of_mem r hq))
    · simp only [Bool.eq_false_iff.mpr he, Bool.false_eq_true, if_false]
      exact ih tags l (fun q hq => hall q (List.mem_cons_of_mem r hq))

/-- Any run of the single-transaction rule loop is a no-op when no rule
can match the transaction. -/
theorem apply_txn_rules_no_match (re : ReCompile) (uid : Nat) (dry : Bool)
    (txn : Transaction) (db : Db) :
    ∀ (rules : List TagRule) (tags : List Nat) (l : List TransactionTag),
      (∀ rule, evaluate_rule re db rule txn uid = false) →
      apply_txn_rules re uid dry txn rules (tags, tagsWith db l)
        = (tags, tagsWith db l) := by
  intro rules
  induction rules with
  | nil => intro tags l _; simp [apply_txn_rules]
  | cons r rest ih =>
    intro tags l hall
    rw [apply_txn_rules]
    have he : evaluate_rule re (tagsWith db l) r txn uid = false := by
      rw [evaluate_rule_tagsWith]; exact hall r
    simp only [he, Bool.false_eq_true, if_false]
    exact ih tags l hall

/-- A committing run of the single-transaction rule loop never brings
the multiplicity of an association pair above one. -/
theorem apply_txn_rules_count (re : ReCompile) (uid : Nat) (txn : Transaction)
    (db : Db) (k : TransactionTag) :
    ∀ (rules : List TagRule) (tags : List Nat) (l : List TransactionTag),
      l.count k ≤ 1 →
      ((apply_txn_rules re uid false txn rules (tags, tagsWith db l)).2).transaction_tags.count k
        ≤ 1 := by
  intro rules
  induction rules with
  | nil =>
    intro tags l hl
    simpa [apply_txn_rules, tagsWith] using hl
  | cons r rest ih =>
    intro tags l hl
    rw [apply_txn_rules]
    by_cases he : evaluate_rule re (tagsWith db l) r txn uid = true
    · rw [apply_tag_tagsWith]
      by_cases hx : (l.any fun tt =>
          tt.transaction_id == txn.id && tt.tag_id == r.tag_id) = true
      · simp only [he, if_true, Bool.not_false, hx]
        exact ih tags l hl
      · simp only [he, if_true, Bool.not_false, Bool.eq_false_iff.mpr hx, if_false]
        refine ih _ _ ?_
        have hnot : (⟨txn.id, r.tag_id⟩ : TransactionTag) ∉ l := by
          intro hmem
          exact hx ((any_pair_iff_mem l txn.id r.tag_id).mpr hmem)
        rw [List.count_append]
        by_cases hk : k = (⟨txn.id, r.tag_id⟩ : TransactionTag)
        · rw [hk]
          rw [List.count_eq_zero.mpr hnot]
          simp
        · have : List.count k [(⟨txn.id, r.tag_id⟩ : TransactionTag)] = 0 := by
            rw [List.count_eq_zero]
            rw [List.mem_singleton]
            exact hk
          omega
    · simp only [Bool.eq_false_iff.mpr he, Bool.false_eq_true, if_false]
      exact ih tags l hl

/-- A run of the bulk pair loop only appends pairs whose transaction id
comes from a processed pair. -/
theorem apply_pairs_state (re : ReCompile) (uid : Nat) (dry : Bool) (db : Db) :
    ∀ (pairs : List (Transaction × TagRule)) (cnt : Nat)
      (det : List DetailRecord) (l : List TransactionTag),
      ∃ ext, (apply_pairs re uid dry pairs (cnt, det, tagsWith db l)).2.2
          = tagsWith db (l ++ ext)
        ∧ ∀ k ∈ ext, ∃ p ∈ pairs, k.transaction_id = p.1.id := by
  intro pairs
  induction pairs with
  | nil =>
    intro cnt det l
    refine ⟨[], by simp [apply_pairs], ?_⟩
    intro k hk; cases hk
  | cons p0 rest ih =>
    rcases p0 with ⟨txn, rule⟩
    intro cnt det l
    have main : ∀ (cnt2 : Nat) (det2 : List DetailRecord) (l2 : List TransactionTag),
        (l2 = l ∨ l2 = l ++ [(⟨txn.id, rule.tag_id⟩ : TransactionTag)]) →
        ∃ ext, (apply_pairs re uid dry rest (cnt2, det2, tagsWith db l2)).2.2
            = tagsWith db (l ++ ext)
          ∧ ∀ k ∈ ext, ∃ p ∈ (txn, rule) :: rest, k.transaction_id = p.1.id := by
      intro cnt2 det2 l2 hl2
      rcases ih cnt2 det2 l2 with ⟨ext2, h1, h2⟩
      have h2b : ∀ k ∈ ext2, ∃ p ∈ (txn, rule) :: rest, k.transaction_id = p.1.id := by
        intro k hk
        rcases h2 k hk with ⟨p, hp, hpk⟩
        exact ⟨p, List.mem_cons_of_mem _ hp, hpk⟩
      rcases hl2 with rfl | rfl
      · exact ⟨ext2, h1, h2b⟩
      · refine ⟨(⟨txn.id, rule.tag_id⟩ : TransactionTag) :: ext2, ?_, ?_⟩
        · rw [h1, List.append_assoc, List.singleton_append]
        · intro k hk
          rcases List.mem_cons.mp hk with rfl | hk2
          · exact ⟨(txn, rule), List.mem_cons_self _ rest, rfl⟩
          · exact h2b k hk2
    rw [apply_pairs]
    by_cases he : evaluate_rule re (tagsWith db l) rule txn uid = true
    · by_cases hx : transaction_tag_exists (tagsWith db l) txn.id rule.tag_id = true
      · simp only [he, if_true, hx]
        exact main cnt det l (Or.inl rfl)
      · cases dry with
        | true =>
          simp only [he, if_true, Bool.eq_false_iff.mpr hx, Bool.false_eq_true,
            if_false, Bool.not_true]
          exact main (cnt + 1) (det ++ [⟨txn.id, rule.tag_id, rule.id⟩]) l (Or.inl rfl)
        | false =>
          rw [apply_tag_tagsWith]
          have hxl : (l.any fun tt =>
              tt.transaction_id == txn.id && tt.tag_id == rule.tag_id) = false :=
            Bool.eq_false_iff.mpr hx
          simp only [he, if_true, Bool.eq_false_iff.mpr hx, Bool.false_eq_true,
            if_false, Bool.not_false, hxl]
          exact main (cnt + 1) det (l ++ [(⟨txn.id, rule.tag_id⟩ : TransactionTag)])
            (Or.inr rfl)
    · simp only [Bool.eq_false_iff.mpr he, Bool.false_eq_true, if_false]
      exact main cnt det l (Or.inl rfl)

/-- Run equation of the single-transaction entry point when the
transaction is found. -/
theorem apply_rules_to_transaction_eq (re : ReCompile) (db : Db) (tid uid : Nat)
    (dry : Bool) (txn : Transaction)
    (hf : db.transactions.find? (fun t => t.id == tid) = some txn) :
    apply_rules_to_transaction re db tid uid dry
      = Except.ok
          ({ evaluated_count := 1,
             applied_count := (apply_txn_rules re uid dry txn
               (list_applicable_for_user db uid true) ([], db)).1.length,
             transaction_id := tid,
             applied_tag_ids := (apply_txn_rules re uid dry txn
               (list_applicable_for_user db uid true) ([], db)).1 },
           (apply_txn_rules re uid dry txn
             (list_applicable_for_user db uid true) ([], db)).2) := by
  unfold apply_rules_to_transaction
  rw [hf]

/-- Run equation of the single-transaction entry point when the
transaction is absent. -/
theorem apply_rules_to_transaction_eq_none (re : ReCompile) (db : Db)
    (tid uid : Nat) (dry : Bool)
    (hf : db.transactions.find? (fun t => t.id == tid) = none) :
    apply_rules_to_transaction re db tid uid dry = Except.error () := by
  unfold apply_rules_to_transaction
  rw [hf]

/-- A transaction failing the ownership guard matches no rule. -/
theorem evaluate_rule_not_owned (re : ReCompile) (db : Db) (rule : TagRule)
    (t : Transaction) (uid : Nat)
    (h : transaction_belongs_to_user db t uid = false) :
    evaluate_rule re db rule t uid = false := by
  unfold evaluate_rule
  simp [h]

/-- A candidate transaction of the bulk query is a transaction of the
table that passes the ownership join for the acting user. -/
theorem mem_candidate_owned (db : Db) (uid : Nat) (req : ApplyRulesRequest)
    (x : Transaction) (h : x ∈ candidate_transactions db uid req) :
    x ∈ db.transactions ∧ transaction_belongs_to_user db x uid = true := by
  unfold candidate_transactions at h
  rw [List.mem_filter] at h
  refine ⟨h.1, ?_⟩
  have h2 := h.2
  simp only [Bool.and_eq_true] at h2
  exact h2.1.1.1

/-- Claim C3: a rule of user A is never applied to a transaction whose
ownership chain reaches a different user B, regardless of content: the
evaluator rejects every rule outright, and neither the single-transaction
run nor the bulk run adds any association pair referencing that
transaction. -/
theorem ownership_guard_blocks_foreign_user (re : ReCompile) (db : Db)
    (A B : Nat) (t : Transaction)
    (hs : db.statements.Pairwise fun a b => a.id ≠ b.id)
    (hc : db.cards.Pairwise fun a b => a.id ≠ b.id)
    (htx : db.transactions.Pairwise fun a b => a.id ≠ b.id)
    (ht : t ∈ db.transactions)
    (hB : transaction_belongs_to_user db t B = true)
    (hAB : A ≠ B) :
    (∀ rule, evaluate_rule re db rule t A = false) ∧
    (∀ (tid : Nat) (dry : Bool) (out : ApplyTxnResult × Db),
      apply_rules_to_transaction re db tid A dry = Except.ok out →
      ∀ tt ∈ out.2.transaction_tags, tt.transaction_id = t.id →
        tt ∈ db.transaction_tags) ∧
    (∀ req : ApplyRulesRequest,
      ∀ tt ∈ (apply_rules re db A req).2.transaction_tags,
        tt.transaction_id = t.id → tt ∈ db.transaction_tags) := by
  have hbelA : transaction_belongs_to_user db t A = false := by
    rw [Bool.eq_false_iff]
    intro h
    exact hAB (belongs_unique db t hs hc h hB)
  have heval : ∀ rule, evaluate_rule re db rule t A = false :=
    fun rule => evaluate_rule_not_owned re db rule t A hbelA
  refine ⟨heval, ?_, ?_⟩
  · intro tid dry out hrun tt htt htid
    cases hf : db.transactions.find? (fun x => x.id == tid) with
    | none =>
      rw [apply_rules_to_transaction_eq_none re db tid A dry hf] at hrun
      exact Except.noConfusion hrun
    | some txn =>
      rw [apply_rules_to_transaction_eq re db tid A dry txn hf] at hrun
      have hout := Except.ok.inj hrun
      by_cases hid : txn.id = t.id
      · have htxeq : txn = t :=
          eq_of_pairwise_key (fun x => x.id) htx (List.mem_of_find?_eq_some hf) ht hid
        subst htxeq
        have hloop2 : apply_txn_rules re A dry txn
            (list_applicable_for_user db A true) ([], db)
            = ([], tagsWith db db.transaction_tags) :=
          apply_txn_rules_no_match re A dry txn db
            (list_applicable_for_user db A true) [] db.transaction_tags heval
        rw [← hout] at htt
        rw [hloop2] at htt
        exact htt
      · rcases apply_txn_rules_state re A dry txn db
            (list_applicable_for_user db A true) [] db.transaction_tags with
          ⟨ext, hst, hkext⟩
        have hst2 : (apply_txn_rules re A dry txn
            (list_applicable_for_user db A true) ([], db)).2
            = tagsWith db (db.transaction_tags ++ ext) := hst
        rw [← hout] at htt
        rw [hst2] at htt
        rcases List.mem_append.mp htt with hmem | hmem
        · exact hmem
        · exact absurd ((hkext tt hmem).symm.trans htid) hid
  · intro req tt htt htid
    rcases apply_pairs_state re A req.dry_run db
        (txnRulePairs (candidate_transactions db A req)
          (list_applicable_for_user db A true)) 0 [] db.transaction_tags with
      ⟨ext, hst, hkext⟩
    have hst2 : (apply_rules re db A req).2
        = tagsWith db (db.transaction_tags ++ ext) := hst
    rw [hst2] at htt
    rcases List.mem_append.mp htt with hmem | hmem
    · exact hmem
    · rcases hkext tt hmem with ⟨p, hp, hpk⟩
      have hpc := (mem_txnRulePairs _ _ p).mp hp
      obtain ⟨hmem1, hbel1⟩ := mem_candidate_owned db A req p.1 hpc.1
      have hne : p.1.id ≠ t.id := by
        intro heq
        have hpt : p.1 = t :=
          eq_of_pairwise_key (fun x => x.id) htx hmem1 ht heq
        rw [hpt, hbelA] at hbel1
        exact Bool.false_ne_true hbel1
      exact absurd (hpk.symm.trans htid) hne

/-- Concrete instantiation of the ownership theorem: rule 11 of user 1
never matches transaction 2 of user 2. -/
theorem ownership_guard_blocks_foreign_user_witness :
    evaluate_rule reNone exDbTwoUsers exRule exTxn2 1 = false :=
  (ownership_guard_blocks_foreign_user reNone exDbTwoUsers 1 2 exTxn2
    (by decide) (by decide) (by decide) (by decide) (by decide) (by decide)).1 exRule

/-- Claim C4: the association writer is idempotent: an existing pair
yields false and no write, a missing pair is appended with result true.
Consequently a second committing single-transaction run over the same
inputs reports zero newly applied tags and leaves the state unchanged,
and a committing run never raises the multiplicity of a pair above
one. -/
theorem apply_tag_idempotent (re : ReCompile) (db : Db) (tid tagid uid : Nat)
    (out1 out2 : ApplyTxnResult × Db) :
    ((⟨tid, tagid⟩ : TransactionTag) ∈ db.transaction_tags →
      apply_tag_to_transaction db tid tagid = (false, db)) ∧
    ((⟨tid, tagid⟩ : TransactionTag) ∉ db.transaction_tags →
      apply_tag_to_transaction db tid tagid
        = (true, tagsWith db (db.transaction_tags ++ [⟨tid, tagid⟩]))) ∧
    (apply_rules_to_transaction re db tid uid false = Except.ok out1 →
     apply_rules_to_transaction re out1.2 tid uid false = Except.ok out2 →
     out2.1.applied_count = 0 ∧ out2.2 = out1.2 ∧
     (∀ k : TransactionTag, db.transaction_tags.count k ≤ 1 →
        out1.2.transaction_tags.count k ≤ 1)) := by
  refine ⟨?_, ?_, ?_⟩
  · intro hmem
    have hx : transaction_tag_exists db tid tagid = true :=
      (transaction_tag_exists_iff db tid tagid).mpr hmem
    unfold apply_tag_to_transaction
    simp [hx]
  · intro hmem
    have hx : transaction_tag_exists db tid tagid = false := by
      rw [Bool.eq_false_iff]
      intro h
      exact hmem ((transaction_tag_exists_iff db tid tagid).mp h)
    unfold apply_tag_to_transaction
    simp [hx]
  · intro h1 h2
    cases hf : db.transactions.find? (fun t => t.id == tid) with
    | none =>
      rw [apply_rules_to_transaction_eq_none re db tid uid false hf] at h1
      exact Except.noConfusion h1
    | some txn =>
      rw [apply_rules_to_transaction_eq re db tid uid false txn hf] at h1
      have hout1 := Except.ok.inj h1
      rcases apply_txn_rules_state re uid false txn db
          (list_applicable_for_user db uid true) [] db.transaction_tags with
        ⟨ext1, hst1, _⟩
      have hst1b : (apply_txn_rules re uid false txn
          (list_applicable_for_user db uid true) ([], db)).2
          = tagsWith db (db.transaction_tags ++ ext1) := hst1
      have hOut12 : out1.2 = tagsWith db (db.transaction_tags ++ ext1) := by
        rw [← hout1]
        exact hst1b
      rw [hOut12] at h2
      have hf2 : (tagsWith db (db.transaction_tags ++ ext1)).transactions.find?
          (fun t => t.id == tid) = some txn := hf
      rw [apply_rules_to_transaction_eq re (tagsWith db (db.transaction_tags ++ ext1))
        tid uid false txn hf2] at h2
      rw [list_applicable_tagsWith] at h2
      have hall : ∀ r ∈ list_applicable_for_user db uid true,
          evaluate_rule re db r txn uid = true →
          (⟨txn.id, r.tag_id⟩ : TransactionTag) ∈ db.transaction_tags ++ ext1 := by
        intro r hr heval
        have hmem := apply_txn_rules_commit_mem re uid txn db
          (list_applicable_for_user db uid true) [] db.transaction_tags r hr heval
        rw [hst1] at hmem
        exact hmem
      have hloop2 : apply_txn_rules re uid false txn
          (list_applicable_for_user db uid true)
          ([], tagsWith db (db.transaction_tags ++ ext1))
          = ([], tagsWith db (db.transaction_tags ++ ext1)) :=
        apply_txn_rules_all_present re uid txn db
          (list_applicable_for_user db uid true) [] (db.transaction_tags ++ ext1) hall
      rw [hloop2] at h2
      have hout2 := Except.ok.inj h2
      refine ⟨?_, ?_, ?_⟩
      · rw [← hout2]; rfl
      · rw [← hout2, hOut12]
      · intro k hk
        have hcnt := apply_txn_rules_count re uid txn db k
          (list_applicable_for_user db uid true) [] db.transaction_tags hk
        rw [hst1] at hcnt
        rw [hOut12]
        exact hcnt

/-- Concrete instantiation of the idempotence theorem: running the
committing single-transaction apply twice on the Amazon state leaves a
second run with zero newly applied tags. -/
theorem apply_tag_idempotent_witness :
    (((⟨1, 0, 1, ([] : List Nat)⟩ : ApplyTxnResult), exDbTagged)).1.applied_count = 0 := by
  have h := (apply_tag_idempotent reNone exDb 1 7 1
      ((⟨1, 1, 1, [7]⟩ : ApplyTxnResult), exDbTagged)
      ((⟨1, 0, 1, ([] : List Nat)⟩ : ApplyTxnResult), exDbTagged)).2.2 (by rfl) (by rfl)
  exact h.1

/-- Claim C2 (amended): on a state whose transactions have pairwise
distinct ids and whose rule table carries pairwise distinct tag ids, a
dry run writes nothing, a bulk dry run and a bulk committing run over
the same filters report the same applied_count, that count is exactly
the number of newly created associations of the committing run, and the
single-transaction entry point reports the same count in both modes. -/
theorem dry_run_commit_parity (re : ReCompile) (db : Db) (uid tid : Nat)
    (req : ApplyRulesRequest)
    (htx : db.transactions.Pairwise fun a b => a.id ≠ b.id)
    (hrt : db.tag_rules.Pairwise fun a b => a.tag_id ≠ b.tag_id) :
    ((apply_rules re db uid { req with dry_run := true }).2 = db) ∧
    ((apply_rules re db uid { req with dry_run := true }).1.applied_count
      = (apply_rules re db uid { req with dry_run := false }).1.applied_count) ∧
    ((apply_rules re db uid { req with dry_run := false }).2.transaction_tags.length
      = db.transaction_tags.length
        + (apply_rules re db uid { req with dry_run := false }).1.applied_count) ∧
    (Except.map (fun x => x.1.applied_count)
        (apply_rules_to_transaction re db tid uid true)
      = Except.map (fun x => x.1.applied_count)
        (apply_rules_to_transaction re db tid uid false)) := by
  have hrules : (list_applicable_for_user db uid true).Pairwise
      (fun a b => a.tag_id ≠ b.tag_id) := by
    have hsub : ((db.tag_rules.filter fun r => r.user_id == uid).filter
        fun r => !true || r.enabled).Sublist db.tag_rules :=
      (List.filter_sublist _).trans (List.filter_sublist _)
    have hfil := List.Pairwise.sublist hsub hrt
    have hperm := List.perm_insertionSort ruleOrder
      ((db.tag_rules.filter fun r => r.user_id == uid).filter
        fun r => !true || r.enabled)
    exact (List.Perm.pairwise_iff (fun h => Ne.symm h) hperm).mpr hfil
  have htxs : (candidate_transactions db uid req).Pairwise
      (fun a b => a.id ≠ b.id) :=
    List.Pairwise.sublist (List.filter_sublist _) htx
  have hpairs : (txnRulePairs (candidate_transactions db uid req)
      (list_applicable_for_user db uid true)).Pairwise
      (fun p q => pairKey p ≠ pairKey q) :=
    pairwise_pairKey_product _ _ htxs hrules
  have hdry := apply_pairs_dry re uid
    (txnRulePairs (candidate_transactions db uid req)
      (list_applicable_for_user db uid true)) 0 [] db
  have hcommit := apply_pairs_commit re uid db
    (txnRulePairs (candidate_transactions db uid req)
      (list_applicable_for_user db uid true)) [] 0 [] hpairs
    (by intro p hp h; cases h)
  have h0 : tagsWith db (db.transaction_tags ++ []) = db := by
    rw [List.append_nil]
    rfl
  rw [h0] at hcommit
  have hdryState : (apply_rules re db uid { req with dry_run := true }).2 = db := by
    show (apply_pairs re uid true
      (txnRulePairs (candidate_transactions db uid req)
        (list_applicable_for_user db uid true)) (0, [], db)).2.2 = db
    rw [hdry]
  refine ⟨hdryState, ?_, ?_, ?_⟩
  · show (apply_pairs re uid true
        (txnRulePairs (candidate_transactions db uid req)
          (list_applicable_for_user db uid true)) (0, [], db)).1
      = (apply_pairs re uid false
        (txnRulePairs (candidate_transactions db uid req)
          (list_applicable_for_user db uid true)) (0, [], db)).1
    rw [hdry, hcommit]
  · show ((apply_pairs re uid false
        (txnRulePairs (candidate_transactions db uid req)
          (list_applicable_for_user db uid true)) (0, [], db)).2.2).transaction_tags.length
      = db.transaction_tags.length
        + (apply_pairs re uid false
          (txnRulePairs (candidate_transactions db uid req)
            (list_applicable_for_user db uid true)) (0, [], db)).1
    rw [hcommit]
    show (db.transaction_tags ++ ([] ++ _)).length = _
    rw [List.nil_append, List.length_append, List.length_map,
      List.countP_eq_length_filter]
    simp
  · cases hf : db.transactions.find? (fun t => t.id == tid) with
    | none =>
      rw [apply_rules_to_transaction_eq_none re db tid uid true hf,
        apply_rules_to_transaction_eq_none re db tid uid false hf]
    | some txn =>
      rw [apply_rules_to_transaction_eq re db tid uid true txn hf,
        apply_rules_to_transaction_eq re db tid uid false txn hf]
      have hsingleDry := apply_txn_rules_dry re uid txn
        (list_applicable_for_user db uid true) [] db
      have hsingleCommit0 := apply_txn_rules_commit re uid txn db
        (list_applicable_for_user db uid true) [] [] hrules
        (by intro r hr h; cases h)
      rw [h0] at hsingleCommit0
      have hsingleCommit : apply_txn_rules re uid false txn
          (list_applicable_for_user db uid true) ([], db)
          = ([] ++ ((list_applicable_for_user db uid true).filter
              (ruleApplies re uid db txn)).map (fun r => r.tag_id),
             tagsWith db (db.transaction_tags ++ ([]
               ++ ((list_applicable_for_user db uid true).filter
                 (ruleApplies re uid db txn)).map
                   (fun r => (⟨txn.id, r.tag_id⟩ : TransactionTag))))) :=
        hsingleCommit0
      rw [hsingleDry, hsingleCommit]
      simp [Except.map]

/-- Dry-run versus commit counts differ on the state where two enabled
rules carry the same tag and both match the one candidate transaction:
the dry run reports two would-be applications while the committing run
creates one association; the same divergence shows in the
single-transaction entry point. -/
theorem dry_run_commit_parity_counterexample :
    (apply_rules reNone exDb 1 exReqDry).1.applied_count = 2 ∧
    (apply_rules reNone exDb 1 exReqCommit).1.applied_count = 1 ∧
    (apply_rules reNone exDb 1 exReqDry).1.applied_count
      ≠ (apply_rules reNone exDb 1 exReqCommit).1.applied_count ∧
    Except.map (fun x => x.1.applied_count)
      (apply_rules_to_transaction reNone exDb 1 1 true) = Except.ok 2 ∧
    Except.map (fun x => x.1.applied_count)
      (apply_rules_to_transaction reNone exDb 1 1 false) = Except.ok 1 := by
  refine ⟨by rfl, by rfl, by decide, by rfl, by rfl⟩

/-- Concrete instantiation of the amended parity theorem on the state
whose two rules carry distinct tags: both modes report two
applications. -/
theorem dry_run_commit_parity_witness :
    (apply_rules reNone exDbDistinct 1 { exReqDry with dry_run := true }).1.applied_count
      = (apply_rules reNone exDbDistinct 1 { exReqDry with dry_run := false }).1.applied_count :=
  (dry_run_commit_parity reNone exDbDistinct 1 1 exReqDry (by decide) (by decide)).2.1

/-- Claim C5 (amended): at creation time validation rejects exactly the
payloads with an uncompilable regex or all seven conditions null, and a
rejected payload is never persisted; at update time validation rejects
exactly the payloads with an uncompilable regex, also before
persistence — an update payload with all seven condition fields null is
not rejected. -/
theorem rule_validation_create_update (re : ReCompile) (db : Db) (rid : Nat)
    (p : TagRuleCreateData) (q : TagRuleUpdateData) :
    ((∃ e, tagRuleCreate_validate re p = Except.error e) ↔
      (validate_regex re p.payee_regex = false ∨
       validate_regex re p.description_regex = false ∨
       all_conditions_none p = true)) ∧
    (∀ e, tagRuleCreate_validate re p = Except.error e →
      create_tag_rule_op re db rid p = Except.error e) ∧
    ((∃ e, tagRuleUpdate_validate re q = Except.error e) ↔
      (validate_regex re q.payee_regex = false ∨
       validate_regex re q.description_regex = false)) ∧
    (∀ e, tagRuleUpdate_validate re q = Except.error e →
      update_tag_rule_op re db rid q = Except.error e) := by
  refine ⟨?_, ?_, ?_, ?_⟩
  · unfold tagRuleCreate_validate
    by_cases h1 : validate_regex re p.payee_regex <;>
      by_cases h2 : validate_regex re p.description_regex <;>
        by_cases h3 : all_conditions_none p <;>
          simp [h1, h2, h3, Bool.not_eq_true] at *
  · intro e he
    unfold create_tag_rule_op
    rw [he]
  · unfold tagRuleUpdate_validate
    by_cases h1 : validate_regex re q.payee_regex <;>
      by_cases h2 : validate_regex re q.description_regex <;>
        simp [h1, h2, Bool.not_eq_true] at *
  · intro e he
    unfold update_tag_rule_op
    rw [he]

/-- An update payload whose seven condition fields are all null (while
the non-nullable columns carry values) passes validation and is
persisted, leaving rule 11 with zero match conditions, against the claim
that such an update is rejected with a validation failure before any
persistence. -/
theorem update_zero_conditions_accepted :
    exUpdKeepTag.payee_contains = none ∧ exUpdKeepTag.description_contains = none ∧
    exUpdKeepTag.payee_regex = none ∧ exUpdKeepTag.description_regex = none ∧
    exUpdKeepTag.amount_min = none ∧ exUpdKeepTag.amount_max = none ∧
    exUpdKeepTag.currency = none ∧
    tagRuleUpdate_validate reOk exUpdKeepTag = Except.ok exUpdKeepTag ∧
    update_tag_rule_op reOk exDb 11 exUpdKeepTag
      = Except.ok ⟨[exCard], [exStatement], [exTxn],
          [⟨11, 1, 7, true, 100, 0, none, none, none, none, none, none, none⟩,
           exRule2], []⟩ :=
  ⟨rfl, rfl, rfl, rfl, rfl, rfl, rfl, rfl, rfl⟩

/-- Concrete instantiation of the amended validation theorem: the
creation payload with zero conditions is rejected before any
persistence. -/
theorem rule_validation_create_update_witness :
    create_tag_rule_op reOk exDbEmpty 31 exCreateAllNone
      = Except.error "At least one match condition must be set" :=
  (rule_validation_create_update reOk exDbEmpty 31 exCreateAllNone
    exUpdAllNone).2.1 "At least one match condition must be set" (by rfl)

/-- Claim C6 (amended): the writer returns false without writing when
the pair exists at the pre-insert existence check; when the pair appears
only between the check and the insert, the uniqueness violation of the
insert propagates as an error instead of being reported as
already-applied; when the pair exists in neither state the insert
succeeds and true is returned. -/
theorem apply_tag_race_semantics (dbC dbI : Db) (tid tagid : Nat) :
    (transaction_tag_exists dbC tid tagid = true →
      apply_tag_to_transaction_race dbC dbI tid tagid = Except.ok (false, dbI)) ∧
    (transaction_tag_exists dbC tid tagid = false →
     transaction_tag_exists dbI tid tagid = true →
      apply_tag_to_transaction_race dbC dbI tid tagid = Except.error ()) ∧
    (transaction_tag_exists dbC tid tagid = false →
     transaction_tag_exists dbI tid tagid = false →
      apply_tag_to_transaction_race dbC dbI tid tagid
        = Except.ok (true, tagsWith dbI (dbI.transaction_tags ++ [⟨tid, tagid⟩]))) := by
  refine ⟨?_, ?_, ?_⟩
  · intro h1
    unfold apply_tag_to_transaction_race
    simp [h1]
  · intro h1 h2
    unfold apply_tag_to_transaction_race transaction_tag_create
    simp [h1, h2]
  · intro h1 h2
    unfold apply_tag_to_transaction_race transaction_tag_create
    simp [h1, h2]

/-- The race the claim describes: the pair is absent at check time and
present at insert time, and the writer propagates the uniqueness
violation instead of returning false. -/
theorem apply_tag_race_counterexample :
    transaction_tag_exists exDbEmpty 1 7 = false ∧
    transaction_tag_exists exDbPair 1 7 = true ∧
    apply_tag_to_transaction_race exDbEmpty exDbPair 1 7 = Except.error () :=
  ⟨rfl, rfl, rfl⟩

/-- Concrete instantiation of the race-semantics theorem: with the pair
present at check time the writer reports already-applied. -/
theorem apply_tag_race_semantics_witness :
    apply_tag_to_transaction_race exDbPair exDbPair 1 7
      = Except.ok (false, exDbPair) :=
  (apply_tag_race_semantics exDbPair exDbPair 1 7).1 (by rfl)

end CreditScan
